import Mathlib

/-!
# Whack-a-Packet: DNS codec, response cache, transmit path and packet pipeline

A shallow embedding of `src/dns_query.c`, `src/cache.c`, the transmit path of
`src/af_xdp_init.c` and `process_packet` of `src/main.c`.

Conventions of the embedding.

* A byte is a `Nat` below 256; memory (a C array or the bytes a pointer
  points at) is a `List Nat`.
* A C string argument is given as the bytes at the pointer.  Every reader
  stops at the first `0` byte; the end of the list stands for the
  terminator when no `0` byte comes first.
* `uint16_t` values are `Nat` below `2^16`, `uint32_t` values `Nat` below
  `2^32`, `size_t` counters wrap at `2^64`.  The target is LP64: `time_t` is a
  signed 64-bit type, modelled as `Int`, so `now - timestamp > ttl` compares
  signed values after the `uint32_t` ttl is widened.
* The two implementation-defined choices of the C target that the code
  depends on, the byte order of the host and the signedness of plain
  `char`, are the fields of `Abi`.  `Abi.x86_64` is the usual Linux target.
* Static variables become explicit state that is passed in and returned.
* libxdp and the kernel are the environment of the socket code: a consumer
  ring is the counts that its indices define (the consumer's cached view, what
  the kernel produced since, what is handed out), the ring functions follow
  libxdp's `xsk.h`, and what the kernel adds to the completion ring is an
  argument of the loop that waits for it.  A loop that
  need not end takes a bound on its iterations and yields `none` when the bound
  is reached.
-/

namespace WhackAPacket

/-! ## Target description and byte-order helpers -/

/-- Implementation-defined properties of the C target. -/
structure Abi where
  little_endian : Bool
  char_signed : Bool
deriving DecidableEq

/-- Linux on x86-64: little-endian, plain `char` is signed. -/
def Abi.x86_64 : Abi := { little_endian := true, char_signed := true }

/-- A big-endian host with unsigned plain `char` (for instance s390x Linux). -/
def Abi.s390x : Abi := { little_endian := false, char_signed := false }

/-- Swap the two bytes of a 16-bit value. -/
def bswap16 (v : Nat) : Nat := (v % 256) * 256 + (v / 256) % 256

/-- `htons` of `<arpa/inet.h>`: host to network (big-endian) order of a
`uint16_t`; the argument is first converted to `uint16_t`. -/
def htons (abi : Abi) (v : Nat) : Nat :=
  if abi.little_endian then bswap16 v else v % 65536

/-- `ntohs` of `<arpa/inet.h>`; the same byte swap as `htons`. -/
def ntohs (abi : Abi) (v : Nat) : Nat :=
  if abi.little_endian then bswap16 v else v % 65536

/-- The two bytes a `uint16_t` occupies in host memory, lowest address first. -/
def store16 (abi : Abi) (v : Nat) : List Nat :=
  if abi.little_endian then [v % 256, (v / 256) % 256] else [(v / 256) % 256, v % 256]

/-- The `uint16_t` found in host memory at two consecutive bytes. -/
def load16 (abi : Abi) (b0 b1 : Nat) : Nat :=
  if abi.little_endian then b0 + 256 * b1 else 256 * b0 + b1

/-- The 16-bit big-endian (wire order) value of two consecutive bytes. -/
def be16 (b0 b1 : Nat) : Nat := 256 * b0 + b1

/-- The two bytes of a 16-bit value in big-endian (wire) order. -/
def be16_bytes (v : Nat) : List Nat := [(v / 256) % 256, v % 256]

/-- Every element is a byte. -/
def IsBytes (l : List Nat) : Prop := ∀ b ∈ l, b < 256

instance (l : List Nat) : Decidable (IsBytes l) := by
  unfold IsBytes; infer_instance

/-- The byte at index `i` of a memory region (`0` beyond the region, which C
leaves undefined). -/
def byte_at (mem : List Nat) (i : Nat) : Nat := mem.getD i 0

/-- The C string stored at the start of a memory region: the bytes before the
first `0`. -/
def cstr (mem : List Nat) : List Nat := mem.takeWhile (fun c => c != 0)

/-- Overwrite `dst` from offset `off` on with `bytes` (`memcpy(dst + off, bytes, n)`
with `n` the number of bytes). -/
def write_bytes (dst : List Nat) (off : Nat) (bytes : List Nat) : List Nat :=
  dst.take off ++ bytes ++ dst.drop (off + bytes.length)

/-- `strncpy(dst, src, n)`: the `n` bytes written to `dst`: the string at `src`
cut to `n` bytes, padded with `0` up to `n` bytes. -/
def strncpy (src : List Nat) (n : Nat) : List Nat :=
  (cstr src).take n ++ List.replicate (n - ((cstr src).take n).length) 0

/-- `strcmp(a, b) == 0`: the strings stored at `a` and `b` are equal. -/
def strcmp_eq (a b : List Nat) : Bool := cstr a == cstr b

/-! ## `dns_query.h` -/

/-- `struct dns_header`: six `uint16_t` fields, held as host values. -/
structure dns_header where
  id : Nat
  flags : Nat
  qdcount : Nat
  ancount : Nat
  nscount : Nat
  arcount : Nat
deriving DecidableEq

/-- `struct dns_query`; `name` is the `char[256]` array. -/
structure dns_query where
  header : dns_header
  qtype : Nat
  name : List Nat
  qclass : Nat
deriving DecidableEq

/-- `sizeof(struct dns_header)`. -/
def sizeof_dns_header : Nat := 12

/-- The 12 bytes of a `struct dns_header` in host memory. -/
def header_bytes (abi : Abi) (h : dns_header) : List Nat :=
  store16 abi h.id ++ store16 abi h.flags ++ store16 abi h.qdcount ++
    store16 abi h.ancount ++ store16 abi h.nscount ++ store16 abi h.arcount

/-! ## `dns_query.c` -/

/-- The loop of `encode_domain_name`, with the code after the loop (the
terminating zero) in the branch that leaves it.  `p` is the memory from the loop
pointer on, `label` the `label_len` bytes from `label_start`, `pos` the write
position; the output pointer is `buffer + off`.  Returns the C return value
(`-1`, or the position reached after the terminating zero) and the buffer, with
whatever was written before a failure.  The case of an exhausted `p` does not
arise: `encode_domain_name` supplies the terminator. -/
def encode_domain_name_loop (off buffer_len : Nat) :
    List Nat → List Nat → Nat → List Nat → Int × List Nat
  | [], _, _, buffer => (-1, buffer)
  | c :: rest, label, pos, buffer =>
    if c = 46 ∨ c = 0 then
      if label.length = 0 ∨ label.length > 63 then (-1, buffer)
      else if pos + label.length + 1 > buffer_len then (-1, buffer)
      else
        let buffer1 := write_bytes buffer (off + pos) [label.length % 256]
        let buffer2 := write_bytes buffer1 (off + (pos + 1)) label
        let pos2 := pos + 1 + label.length
        if c = 0 then
          if pos2 + 1 > buffer_len then (-1, buffer2)
          else (((pos2 + 1 : Nat) : Int), write_bytes buffer2 (off + pos2) [0])
        else encode_domain_name_loop off buffer_len rest [] pos2 buffer2
    else encode_domain_name_loop off buffer_len rest (label ++ [c]) pos buffer

/-- `encode_domain_name(domain, buffer + off, buffer_len)`. -/
def encode_domain_name (domain : List Nat) (buffer : List Nat) (off buffer_len : Nat) :
    Int × List Nat :=
  encode_domain_name_loop off buffer_len (domain ++ [0]) [] 0 buffer

/-- `init_query`: `query_id` is the value of the function's static counter
before the call; returns the initialised query and the counter after it. -/
def init_query (abi : Abi) (query_id : Nat) (domain_name : List Nat) (type : Nat) :
    dns_query × Nat :=
  let query_id1 := (query_id + 1) % 65536
  ({ header := { id := query_id1, flags := htons abi 0x0100, qdcount := htons abi 1,
                 ancount := 0, nscount := 0, arcount := 0 },
     qtype := type,
     name := strncpy domain_name 255 ++ [0],
     qclass := htons abi 1 }, query_id1)

/-- The initial value of the static counter of `init_query`. -/
def query_id_initial : Nat := 0

/-- `construct_query(query, buffer, &buffer_len)`: returns the C return value,
the buffer and `*buffer_len` after the call. -/
def construct_query (abi : Abi) (query : dns_query) (buffer : List Nat) (buffer_len : Nat) :
    Int × List Nat × Nat :=
  if buffer_len < 512 then (-1, buffer, buffer_len)
  else
    let buffer1 := write_bytes buffer 0 (header_bytes abi query.header)
    let pos := sizeof_dns_header
    let r := encode_domain_name query.name buffer1 pos (buffer_len - pos)
    if r.1 < 0 then (-1, r.2, buffer_len)
    else
      let pos1 := pos + r.1.toNat
      if pos1 + 4 > buffer_len then (-1, r.2, buffer_len)
      else
        let buffer2 := write_bytes r.2 pos1 (store16 abi (htons abi query.qtype))
        let buffer3 := write_bytes buffer2 (pos1 + 2) (store16 abi query.qclass)
        (0, buffer3, pos1 + 4)

/-- `parse_response(response, response_len, query)`: returns the C return value
and the query structure after the call. -/
def parse_response (abi : Abi) (response : List Nat) (response_len : Nat) (query : dns_query) :
    Int × dns_query :=
  if response_len < sizeof_dns_header then (-1, query)
  else
    let w := fun i => load16 abi (byte_at response i) (byte_at response (i + 1))
    let h : dns_header :=
      { id := w 0, flags := ntohs abi (w 2), qdcount := ntohs abi (w 4),
        ancount := ntohs abi (w 6), nscount := ntohs abi (w 8), arcount := ntohs abi (w 10) }
    let query1 := { query with header := h }
    if h.flags &&& 0x000F ≠ 0 then (-1, query1) else (0, query1)

/-! ## `cache.h` -/

/-- `struct cache_entry`; `domain` is the `char[256]` array, `response` the
`uint8_t[512]` array. -/
structure cache_entry where
  domain : List Nat
  response : List Nat
  response_len : Nat
  timestamp : Int
  ttl : Nat
  valid : Bool
deriving DecidableEq

/-- `struct cache_config`. -/
structure cache_config where
  max_entries : Nat
  default_ttl : Nat
  cleanup_interval : Nat
deriving DecidableEq

/-- The static variables of `cache.c`: `cache` (`none` is `NULL`), `config`,
`hit_count` and `miss_count`. -/
structure cache_state where
  cache : Option (List cache_entry)
  config : cache_config
  hit_count : Nat
  miss_count : Nat
deriving DecidableEq

/-- The static variables of `cache.c` at program start. -/
def cache_state.initial : cache_state :=
  { cache := none,
    config := { max_entries := 0, default_ttl := 0, cleanup_interval := 0 },
    hit_count := 0, miss_count := 0 }

/-- An entry as `calloc` returns it, all bytes zero. -/
def cache_entry.zeroed : cache_entry :=
  { domain := List.replicate 256 0, response := List.replicate 512 0, response_len := 0,
    timestamp := 0, ttl := 0, valid := false }

/-- `sizeof(cache->response)`. -/
def sizeof_response : Nat := 512

/-! ## `cache.c` -/

/-- The value of a plain `char` holding byte `b` after conversion to `int`. -/
def char_to_int (abi : Abi) (b : Nat) : Int :=
  if abi.char_signed ∧ 128 ≤ b then (b : Int) - 256 else (b : Int)

/-- The loop of `hash_domain`: `hash = ((hash << 5) + hash) + c` in `uint32_t`
arithmetic until the terminator. -/
def hash_domain_loop (abi : Abi) : List Nat → Nat → Nat
  | [], hash => hash
  | b :: rest, hash =>
    if b = 0 then hash
    else
      hash_domain_loop abi rest
        ((((((hash <<< 5) % 2 ^ 32 + hash) % 2 ^ 32 : Nat) : Int) + char_to_int abi b) %
          (2 ^ 32 : Int)).toNat

/-- `hash_domain(domain)`. -/
def hash_domain (abi : Abi) (domain : List Nat) : Nat := hash_domain_loop abi domain 5381

/-- `cache_init(cfg)`; `calloc_ok` tells whether `calloc` returned memory.  The
two counters are not assigned. -/
def cache_init (s : cache_state) (cfg : cache_config) (calloc_ok : Bool) : cache_state :=
  if calloc_ok then
    { s with config := cfg,
             cache := some (List.replicate cfg.max_entries
               { cache_entry.zeroed with valid := false }) }
  else { s with config := cfg, cache := none }

/-- `cache_lookup(domain, response, &response_len)` with `now` the value
`time(NULL)` returns.  The pointer arguments are non-null.  Returns the C return
value, the static variables, the response buffer and `*response_len` after the
call.  A slot index outside the array (only possible when `max_entries` is 0 or
differs from the allocated size) is undefined in C and is a no-op here. -/
def cache_lookup (abi : Abi) (s : cache_state) (now : Int) (domain : List Nat)
    (response : List Nat) (response_len : Nat) : Bool × cache_state × List Nat × Nat :=
  match s.cache with
  | none => (false, s, response, response_len)
  | some entries =>
    let index := hash_domain abi domain % s.config.max_entries
    match entries[index]? with
    | none => (false, s, response, response_len)
    | some entry =>
      if entry.valid = true ∧ strcmp_eq entry.domain domain = true then
        if now - entry.timestamp > (entry.ttl : Int) then
          (false,
           { s with cache := some (entries.set index { entry with valid := false }),
                    miss_count := (s.miss_count + 1) % 2 ^ 64 },
           response, response_len)
        else
          (true,
           { s with hit_count := (s.hit_count + 1) % 2 ^ 64 },
           write_bytes response 0 (entry.response.take entry.response_len),
           entry.response_len)
      else
        (false, { s with miss_count := (s.miss_count + 1) % 2 ^ 64 }, response, response_len)

/-- `cache_insert(domain, response, response_len, ttl)` with `now` the value
`time(NULL)` returns.  The pointer arguments are non-null. -/
def cache_insert (abi : Abi) (s : cache_state) (now : Int) (domain : List Nat)
    (response : List Nat) (response_len : Nat) (ttl : Nat) : cache_state :=
  match s.cache with
  | none => s
  | some entries =>
    if response_len > sizeof_response then s
    else
      let index := hash_domain abi domain % s.config.max_entries
      match entries[index]? with
      | none => s
      | some entry =>
        { s with cache := some (entries.set index
            { domain := strncpy domain 255 ++ [0],
              response := write_bytes entry.response 0 (response.take response_len),
              response_len := response_len,
              timestamp := now,
              ttl := if ttl > 0 then ttl else s.config.default_ttl,
              valid := true }) }

/-! ## Vocabulary of the statements -/

/-- The labels the encoder sees when `label` is the label read so far and `s`
the rest of the name: `s` split at every dot (byte 46). -/
def labels_from : List Nat → List Nat → List (List Nat)
  | label, [] => [label]
  | label, c :: s => if c = 46 then label :: labels_from [] s else labels_from (label ++ [c]) s

/-- Wire form of a list of labels: each label preceded by its length byte. -/
def wire_labels (labels : List (List Nat)) : List Nat :=
  labels.flatMap (fun l => l.length :: l)

/-- A label the encoder accepts: 1 to 63 bytes. -/
def valid_label (l : List Nat) : Prop := 1 ≤ l.length ∧ l.length ≤ 63

instance (l : List Nat) : Decidable (valid_label l) := by
  unfold valid_label; infer_instance

/-- The cache array is allocated with `max_entries > 0` slots, as after a
`cache_init` whose `calloc` succeeded. -/
def cache_ready (s : cache_state) : Prop :=
  match s.cache with
  | none => False
  | some entries => entries.length = s.config.max_entries ∧ 0 < s.config.max_entries

/-- The slot at index `i` of the cache array. -/
def cache_slot (s : cache_state) (i : Nat) : Option cache_entry :=
  match s.cache with
  | none => none
  | some entries => entries[i]?

/-- The slot index both `cache_lookup` and `cache_insert` compute. -/
def slot_index (abi : Abi) (s : cache_state) (domain : List Nat) : Nat :=
  hash_domain abi domain % s.config.max_entries

/-- The TTL `cache_insert` stores: the argument, or `default_ttl` when it is 0. -/
def effective_ttl (s : cache_state) (ttl : Nat) : Nat :=
  if ttl > 0 then ttl else s.config.default_ttl

/-- The entry `cache_insert` writes into the slot. -/
def inserted_entry (s : cache_state) (old : cache_entry) (now : Int) (domain response : List Nat)
    (response_len ttl : Nat) : cache_entry :=
  { domain := strncpy domain 255 ++ [0],
    response := write_bytes old.response 0 (response.take response_len),
    response_len := response_len,
    timestamp := now,
    ttl := effective_ttl s ttl,
    valid := true }

/-! ## Inputs of the unit tests -/

/-- The name `test.com` of the unit test. -/
def test_com : List Nat := [116, 101, 115, 116, 46, 99, 111, 109]

/-- The zeroed 512-byte output buffer of the unit tests. -/
def test_buffer : List Nat := List.replicate 512 0

/-- A query structure before `parse_response` fills it. -/
def blank_query : dns_query :=
  { header := { id := 0, flags := 0, qdcount := 0, ancount := 0, nscount := 0, arcount := 0 },
    qtype := 0, name := List.replicate 256 0, qclass := 0 }

/-- The mock response header of the unit test: id 1234, flags 0x8180, one
question, one answer. -/
def test_response : List Nat := [0x04, 0xD2, 0x81, 0x80, 0, 1, 0, 1, 0, 0, 0, 0]

/-- The configuration of the test fixture. -/
def test_config : cache_config :=
  { max_entries := 100, default_ttl := 300, cleanup_interval := 60 }

/-- The state after the fixture called `cache_init(&test_config)` at program start. -/
def test_cache : cache_state := cache_init cache_state.initial test_config true

/-! ## `cache.c`: cleanup and statistics -/

/-- The loop of `cache_cleanup`: `n` iterations are left, `i` is the loop index,
`cleaned` the counter.  An index outside the array (undefined in C) is skipped. -/
def cache_cleanup_loop (now : Int) : Nat → Nat → List cache_entry → Nat → List cache_entry × Nat
  | 0, _, entries, cleaned => (entries, cleaned)
  | n + 1, i, entries, cleaned =>
    match entries[i]? with
    | none => cache_cleanup_loop now n (i + 1) entries cleaned
    | some entry =>
      if entry.valid = true ∧ now - entry.timestamp > (entry.ttl : Int) then
        cache_cleanup_loop now n (i + 1) (entries.set i { entry with valid := false })
          ((cleaned + 1) % 2 ^ 64)
      else cache_cleanup_loop now n (i + 1) entries cleaned

/-- `cache_cleanup()` with `now` the value `time(NULL)` returns: the static
variables after the call and the count `cleaned` that the function prints. -/
def cache_cleanup (s : cache_state) (now : Int) : cache_state × Nat :=
  match s.cache with
  | none => (s, 0)
  | some entries =>
    ({ s with cache := some (cache_cleanup_loop now s.config.max_entries 0 entries 0).1 },
     (cache_cleanup_loop now s.config.max_entries 0 entries 0).2)

/-- `cache_destroy()`. -/
def cache_destroy (s : cache_state) : cache_state := { s with cache := none }

/-- `cache_get_hit_count()`. -/
def cache_get_hit_count (s : cache_state) : Nat := s.hit_count

/-- `cache_get_miss_count()`. -/
def cache_get_miss_count (s : cache_state) : Nat := s.miss_count

/-- `cache_get_hit_ratio()` as the exact quotient; the C function returns its
rounding to `double`, which is `0.0` exactly when the quotient is 0. -/
def cache_get_hit_ratio (s : cache_state) : ℚ :=
  if (s.hit_count + s.miss_count) % 2 ^ 64 = 0 then 0
  else (s.hit_count : ℚ) / (((s.hit_count + s.miss_count) % 2 ^ 64 : Nat) : ℚ)

/-! ## `af_xdp_init.h`, `af_xdp_init.c` and the ring functions of libxdp they call -/

/-- `XSK_BATCH_SIZE`. -/
def XSK_BATCH_SIZE : Nat := 64

/-- `ENOSPC` of `<errno.h>` on Linux. -/
def ENOSPC : Int := 28

/-- A consumer ring of libxdp (`struct xsk_ring_cons`) as the counts its four
indices define: `cached` is `cached_prod - cached_cons`, the entries of the
consumer's cached view that have not been handed out; `fresh` is
`*producer - cached_prod`, the entries the kernel has produced since the cached
view was last refreshed; `held` is `cached_cons - *consumer`, the entries handed
out and not yet released. -/
structure xsk_ring_cons where
  cached : Nat
  fresh : Nat
  held : Nat
deriving DecidableEq

/-- `xsk_cons_nb_avail(r, nb)` of libxdp's `xsk.h`: the cached view is refreshed
from the producer index only when it is empty; the result is the size of the
view, capped at `nb`. -/
def xsk_cons_nb_avail (r : xsk_ring_cons) (nb : Nat) : Nat × xsk_ring_cons :=
  if r.cached = 0 then (min r.fresh nb, { r with cached := r.fresh, fresh := 0 })
  else (min r.cached nb, r)

/-- `xsk_ring_cons__peek(cons, nb, &idx)` of libxdp's `xsk.h`: hands out the
entries `xsk_cons_nb_avail` reports by advancing `cached_cons`. -/
def xsk_ring_cons__peek (cons : xsk_ring_cons) (nb : Nat) : Nat × xsk_ring_cons :=
  if (xsk_cons_nb_avail cons nb).1 > 0 then
    ((xsk_cons_nb_avail cons nb).1,
     { (xsk_cons_nb_avail cons nb).2 with
       cached := (xsk_cons_nb_avail cons nb).2.cached - (xsk_cons_nb_avail cons nb).1,
       held := (xsk_cons_nb_avail cons nb).2.held + (xsk_cons_nb_avail cons nb).1 })
  else xsk_cons_nb_avail cons nb

/-- `xsk_ring_cons__release(cons, nb)` of libxdp's `xsk.h`: advances the
consumer index by `nb`. -/
def xsk_ring_cons__release (cons : xsk_ring_cons) (nb : Nat) : xsk_ring_cons :=
  { cons with held := cons.held - nb }

/-- The part of `struct xdp_socket` the transmit path uses.  `xsk`, `umem` and
`buffer` tell whether the pointer is non-null; `cq` is the completion ring,
`tx_free` the number of free slots of the TX ring, `tx_ring` the descriptors
submitted so far, each as the bytes at the packet pointer and the length;
`outstanding_tx` is an `unsigned int`. -/
structure xdp_socket where
  ifindex : Int
  xsk : Bool
  umem : Bool
  buffer : Bool
  cq : xsk_ring_cons
  tx_free : Nat
  tx_ring : List (List Nat × Nat)
  outstanding_tx : Nat
deriving DecidableEq

/-- The structure after `memset(xsk_socket, 0, sizeof(*xsk_socket))`. -/
def xdp_socket.zeroed : xdp_socket :=
  { ifindex := 0, xsk := false, umem := false, buffer := false,
    cq := { cached := 0, fresh := 0, held := 0 }, tx_free := 0,
    tx_ring := [], outstanding_tx := 0 }

/-- `af_xdp_socket_tx(xsk_socket, pkt, len)`: the C return value and the socket
after the call.  `xsk_ring_prod__reserve(&tx, 1, &idx)` yields 1 exactly when the
TX ring has a free slot. -/
def af_xdp_socket_tx (s : xdp_socket) (pkt : List Nat) (len : Nat) : Int × xdp_socket :=
  if s.tx_free = 0 then (-ENOSPC, s)
  else
    (0, { s with tx_free := s.tx_free - 1,
                 tx_ring := s.tx_ring ++ [(pkt, len)],
                 outstanding_tx := (s.outstanding_tx + 1) % 2 ^ 32 })

/-- `af_xdp_socket_complete_tx(xsk_socket)`. -/
def af_xdp_socket_complete_tx (s : xdp_socket) : xdp_socket :=
  if s.outstanding_tx = 0 then s
  else
    if (xsk_ring_cons__peek s.cq XSK_BATCH_SIZE).1 > 0 then
      { s with
        cq := xsk_ring_cons__release (xsk_ring_cons__peek s.cq XSK_BATCH_SIZE).2
                (xsk_ring_cons__peek s.cq XSK_BATCH_SIZE).1,
        outstanding_tx :=
          (s.outstanding_tx + 2 ^ 32 - (xsk_ring_cons__peek s.cq XSK_BATCH_SIZE).1) % 2 ^ 32 }
    else { s with cq := (xsk_ring_cons__peek s.cq XSK_BATCH_SIZE).2 }

/-- The kernel puts `n` more completions on the completion ring. -/
def kernel_completes (s : xdp_socket) (n : Nat) : xdp_socket :=
  { s with cq := { s.cq with fresh := s.cq.fresh + n } }

/-- `memcpy(&header, packet, sizeof(struct dns_header))`. -/
def header_of_bytes (abi : Abi) (packet : List Nat) : dns_header :=
  { id := load16 abi (byte_at packet 0) (byte_at packet 1),
    flags := load16 abi (byte_at packet 2) (byte_at packet 3),
    qdcount := load16 abi (byte_at packet 4) (byte_at packet 5),
    ancount := load16 abi (byte_at packet 6) (byte_at packet 7),
    nscount := load16 abi (byte_at packet 8) (byte_at packet 9),
    arcount := load16 abi (byte_at packet 10) (byte_at packet 11) }

/-- `process_packet(packet, length)`.  `packet` is the memory at the packet
pointer, `stack` the contents of the local array `response[512]`, which the
function never initialises; `now_lookup` and `now_insert` are the values
`time(NULL)` returns inside `cache_lookup` and `cache_insert`.  Of the local
`query` only the header is assigned and nothing is read after the call of
`parse_response`.  The name passed to the cache is the C string at
`packet + 12`.  Returns the cache variables, the socket, and the arguments
`(pkt, len)` of every `af_xdp_socket_tx` call, in order. -/
def process_packet (abi : Abi) (cs : cache_state) (xsk : xdp_socket)
    (now_lookup now_insert : Int) (stack packet : List Nat) (length : Nat) :
    cache_state × xdp_socket × List (List Nat × Nat) :=
  if length < sizeof_dns_header then (cs, xsk, [])
  else
    let query : dns_query :=
      { header := header_of_bytes abi packet, qtype := 0, name := [], qclass := 0 }
    let r := cache_lookup abi cs now_lookup (packet.drop sizeof_dns_header) stack 512
    if r.1 = true then
      (r.2.1, (af_xdp_socket_tx xsk r.2.2.1 r.2.2.2).2, [(r.2.2.1, r.2.2.2)])
    else if (parse_response abi packet length query).1 = 0 then
      (cache_insert abi r.2.1 now_insert (packet.drop sizeof_dns_header) r.2.2.1 r.2.2.2 3600,
       (af_xdp_socket_tx xsk r.2.2.1 r.2.2.2).2, [(r.2.2.1, r.2.2.2)])
    else (r.2.1, xsk, [])

/-! ## Vocabulary of the statements, continued -/

/-- The classic djb2 hash of a byte string: start from 5381 and fold
`hash = (hash * 33 + b) mod 2^32` over the bytes, each taken as an unsigned
value. -/
def djb2 (s : List Nat) : Nat := s.foldl (fun hash b => (hash * 33 + b) % 2 ^ 32) 5381

/-- One step of the hash as the code computes it: `hash * 33 + c` modulo 2^32,
where `c` is the byte as a plain `char`. -/
def hash_step (abi : Abi) (hash b : Nat) : Nat :=
  (hash * 33 + (if abi.char_signed = true ∧ 128 ≤ b then b + (2 ^ 32 - 256) else b)) % 2 ^ 32

/-- The fold `hash_domain` computes: as `djb2`, but a byte of 0x80 or more
counts as `b - 256` (added modulo 2^32) where plain `char` is signed. -/
def djb2_char (abi : Abi) (s : List Nat) : Nat := s.foldl (hash_step abi) 5381

/-- The cache array, when there is one, has `max_entries` slots, as `cache_init`
leaves it. -/
def cache_sized (s : cache_state) : Prop :=
  match s.cache with
  | none => True
  | some entries => entries.length = s.config.max_entries

/-- What `cache_cleanup` does to one entry for the clock value `now`. -/
def cleaned_entry (now : Int) (e : cache_entry) : cache_entry :=
  if e.valid = true ∧ now - e.timestamp > (e.ttl : Int) then { e with valid := false } else e

/-- The number of entries in the completion ring that have not been handed
out. -/
def cq_entries (s : xdp_socket) : Nat := s.cq.cached + s.cq.fresh

/-- The number of completion descriptors a call of `af_xdp_socket_complete_tx`
drains: what the completion ring loses. -/
def drained (s : xdp_socket) : Nat := cq_entries s - cq_entries (af_xdp_socket_complete_tx s)

/-! ## Inputs of the examples -/

/-- A transmit socket with room in the TX ring and nothing outstanding. -/
def test_socket : xdp_socket :=
  { ifindex := 2, xsk := true, umem := true, buffer := true,
    cq := { cached := 0, fresh := 0, held := 0 }, tx_free := 4096,
    tx_ring := [], outstanding_tx := 0 }

/-- A received frame: the header of `test_response` followed by the question
`test.com`, type A, class IN. -/
def test_frame : List Nat :=
  test_response ++ [4, 116, 101, 115, 116, 3, 99, 111, 109, 0, 0, 1, 0, 1]

/-- The same frame with RCODE 3 in the flags. -/
def test_frame_rcode : List Nat :=
  [0x04, 0xD2, 0x81, 0x83, 0, 1, 0, 1, 0, 0, 0, 0] ++
    [4, 116, 101, 115, 116, 3, 99, 111, 109, 0, 0, 1, 0, 1]

/-- Contents of the uninitialised local array in the examples. -/
def test_stack : List Nat := List.replicate 512 0xAA

/-- The name `example.com`. -/
def example_com : List Nat := [101, 120, 97, 109, 112, 108, 101, 46, 99, 111, 109]

/-- The name `h211.com`, which shares slot 78 of 100 with `example.com`. -/
def h211_com : List Nat := [104, 50, 49, 49, 46, 99, 111, 109]

/-- The cache after the first unit test ran. -/
def cache_after_first_test : cache_state :=
  cache_destroy
    (cache_lookup Abi.x86_64
      (cache_insert Abi.x86_64 test_cache 1000
        [101, 120, 97, 109, 112, 108, 101, 46, 99, 111, 109] [1, 2, 3, 4] 4 60)
      1000 [101, 120, 97, 109, 112, 108, 101, 46, 99, 111, 109] test_buffer 512).2.1

/-- The cache of `test_cache_cleanup` before the cleanup. -/
def cache_two_entries : cache_state :=
  cache_insert Abi.x86_64
    (cache_insert Abi.x86_64 test_cache 1000 [116, 101, 115, 116, 49, 46, 99, 111, 109]
      [10, 11, 12, 13] 4 1)
    1000 [116, 101, 115, 116, 50, 46, 99, 111, 109] [10, 11, 12, 13] 4 300

/-- The cache of the fixture holding a three-byte entry for the question name of
`test_frame`. -/
def cache_with_test_name : cache_state :=
  cache_insert Abi.x86_64 test_cache 1000 (test_frame.drop 12) [1, 2, 3] 3 60

/-- The fixture's cache holding an entry for `h211.com` inserted at time 1000
with ttl 1. -/
def cache_with_h211 : cache_state :=
  cache_insert Abi.x86_64 test_cache 1000 h211_com [3, 4, 5] 3 1

/-- A socket with 36 transmissions outstanding, all completed: 6 completions
are in the consumer's cached view, 30 arrived after the view was read. -/
def socket_cached_view : xdp_socket :=
  { test_socket with outstanding_tx := 36, cq := { cached := 6, fresh := 30, held := 0 } }

theorem labels_from_eq_modifyHead (s : List Nat) :
    ∀ label, labels_from label s = (s.splitOn 46).modifyHead (fun l => label ++ l) := by
  induction s with
  | nil => intro label; simp [labels_from, List.splitOn, List.splitOnP_nil]
  | cons c s ih =>
    intro label
    unfold labels_from
    rw [List.splitOn, List.splitOnP_cons]
    by_cases hc : c = 46
    · subst hc
      have h0 := ih []
      simp only [List.splitOn] at h0
      simp only [if_true, beq_self_eq_true, List.modifyHead, List.append_nil]
      rw [h0]
      cases List.splitOnP (fun x => x == 46) s <;> simp [List.modifyHead]
    · have h1 := ih (label ++ [c])
      simp only [List.splitOn] at h1
      have hb : (c == 46) = false := by simpa using hc
      simp only [hc, if_false, hb]
      rw [h1]
      cases List.splitOnP (fun x => x == 46) s <;> simp [List.modifyHead]

theorem labels_from_nil (s : List Nat) : labels_from [] s = s.splitOn 46 := by
  rw [labels_from_eq_modifyHead]
  cases s.splitOn 46 <;> simp [List.modifyHead]

theorem labels_from_cons_dot (label s : List Nat) :
    labels_from label (46 :: s) = label :: labels_from [] s := by
  simp [labels_from]

theorem labels_from_cons_other (label s : List Nat) (c : Nat) (hc : c ≠ 46) :
    labels_from label (c :: s) = labels_from (label ++ [c]) s := by
  simp [labels_from, hc]

theorem wire_labels_length (s : List Nat) :
    ∀ label, (wire_labels (labels_from label s)).length = label.length + s.length + 1 := by
  induction s with
  | nil => intro label; simp [labels_from, wire_labels]
  | cons c s ih =>
    intro label
    unfold labels_from
    by_cases hc : c = 46
    · have h0 := ih []
      simp only [wire_labels] at h0 ⊢
      simp [hc, h0]
    · have h1 := ih (label ++ [c])
      simp only [wire_labels] at h1 ⊢
      simp [hc, h1]; omega

theorem wire_name_length (name : List Nat) :
    (wire_labels (name.splitOn 46) ++ [0]).length = name.length + 2 := by
  have := wire_labels_length name []
  rw [labels_from_nil] at this
  simp only [List.length_append, List.length_singleton, this, List.length_nil]
  omega

theorem nil_mem_labels_trailing (s : List Nat) :
    ∀ label, [] ∈ labels_from label (s ++ [46]) := by
  induction s with
  | nil => intro label; simp [labels_from]
  | cons c s ih =>
    intro label
    by_cases hc : c = 46
    · subst hc
      rw [List.cons_append, labels_from_cons_dot]
      exact List.mem_cons_of_mem _ (ih [])
    · rw [List.cons_append, labels_from_cons_other _ _ _ hc]
      exact ih _

theorem nil_mem_labels_double (s t : List Nat) :
    ∀ label, [] ∈ labels_from label (s ++ 46 :: 46 :: t) := by
  induction s with
  | nil => intro label; simp [labels_from]
  | cons c s ih =>
    intro label
    by_cases hc : c = 46
    · subst hc
      rw [List.cons_append, labels_from_cons_dot]
      exact List.mem_cons_of_mem _ (ih [])
    · rw [List.cons_append, labels_from_cons_other _ _ _ hc]
      exact ih _

/-! ## Memory and strings -/

theorem write_bytes_length (dst : List Nat) (off : Nat) (bs : List Nat)
    (h : off + bs.length ≤ dst.length) : (write_bytes dst off bs).length = dst.length := by
  simp only [write_bytes, List.length_append, List.length_take, List.length_drop]
  omega

theorem write_bytes_append (dst : List Nat) (off : Nat) (a b : List Nat)
    (h : off + a.length ≤ dst.length) :
    write_bytes (write_bytes dst off a) (off + a.length) b = write_bytes dst off (a ++ b) := by
  have hlen : (List.take off dst ++ a).length = off + a.length := by
    simp only [List.length_append, List.length_take]; omega
  have h1 : List.take (off + a.length) (List.take off dst ++ a ++ List.drop (off + a.length) dst)
      = List.take off dst ++ a := by
    rw [← hlen]; exact List.take_left' rfl
  have h2 : List.drop (off + a.length + b.length)
      (List.take off dst ++ a ++ List.drop (off + a.length) dst)
      = List.drop (off + (a.length + b.length)) dst := by
    rw [List.drop_append_eq_append_drop, hlen]
    have : List.drop (off + a.length + b.length) (List.take off dst ++ a) = [] := by
      apply List.drop_eq_nil_of_le; omega
    rw [this, List.drop_drop]
    simp only [List.nil_append]
    congr 1; omega
  simp only [write_bytes, List.length_append]
  rw [h1, h2]
  simp only [List.append_assoc]

theorem write_bytes_take (dst : List Nat) (off k : Nat) (bs : List Nat)
    (h1 : off ≤ k) (h2 : off ≤ dst.length) :
    (write_bytes dst k bs).take off = dst.take off ∧ off ≤ (write_bytes dst k bs).length := by
  constructor
  · simp only [write_bytes, List.append_assoc]
    rw [List.take_append_eq_append_take, List.take_take]
    have : off - (List.take k dst).length = 0 := by
      simp only [List.length_take]; omega
    rw [this]
    simp [Nat.min_eq_left h1]
  · simp only [write_bytes, List.length_append, List.length_take, List.length_drop]
    omega

theorem write_label (buffer : List Nat) (k : Nat) (label : List Nat)
    (hl : label.length ≤ 63) (hb : k + (label.length + 1) ≤ buffer.length) :
    write_bytes (write_bytes buffer k [label.length % 256]) (k + 1) label =
      write_bytes buffer k (label.length :: label) := by
  have hm : label.length % 256 = label.length := Nat.mod_eq_of_lt (by omega)
  rw [hm]
  have := write_bytes_append buffer k [label.length] label
    (by simp only [List.length_singleton]; omega)
  simpa using this

theorem cstr_ne_zero (mem : List Nat) : ∀ c ∈ cstr mem, c ≠ 0 := by
  intro c hc
  have := List.mem_takeWhile_imp hc
  simpa using this

theorem cstr_split (mem : List Nat) : ∃ junk, mem ++ [0] = cstr mem ++ 0 :: junk := by
  induction mem with
  | nil => exact ⟨[], by simp [cstr]⟩
  | cons c mem ih =>
    by_cases hc : c = 0
    · subst hc; exact ⟨mem ++ [0], by simp [cstr]⟩
    · obtain ⟨junk, hj⟩ := ih
      refine ⟨junk, ?_⟩
      have : cstr (c :: mem) = c :: cstr mem := by simp [cstr, hc]
      rw [this]; simp [hj]

theorem cstr_of_nul_free (s : List Nat) (h : ∀ c ∈ s, c ≠ 0) : cstr s = s := by
  unfold cstr
  rw [List.takeWhile_eq_self_iff]
  intro c hc; simpa using h c hc

theorem cstr_strncpy (src : List Nat) (n : Nat) :
    cstr (strncpy src n ++ [0]) = (cstr src).take n := by
  have hnz : ∀ c ∈ (cstr src).take n, (fun c => c != 0) c = true := by
    intro c hc
    have := cstr_ne_zero src c (List.mem_of_mem_take hc)
    simpa using this
  have key : ∀ t rest : List Nat, (∀ c ∈ t, (fun c => c != 0) c = true) →
      cstr (t ++ 0 :: rest) = t := by
    intro t rest ht
    unfold cstr
    rw [List.takeWhile_append_of_pos ht]
    simp
  have hpad : ∀ k : Nat, ∃ rest, List.replicate k 0 ++ [0] = 0 :: rest := by
    intro k
    cases k with
    | zero => exact ⟨[], rfl⟩
    | succ k => exact ⟨List.replicate k 0 ++ [0], by simp [List.replicate_succ]⟩
  obtain ⟨rest, hrest⟩ := hpad (n - ((cstr src).take n).length)
  unfold strncpy
  rw [List.append_assoc, hrest]
  exact key _ _ hnz

theorem init_query_name (abi : Abi) (query_id : Nat) (domain_name : List Nat) (type : Nat) :
    cstr (init_query abi query_id domain_name type).1.name = (cstr domain_name).take 255 := by
  simp only [init_query]
  exact cstr_strncpy domain_name 255

theorem inserted_key (domain : List Nat) (h : (cstr domain).length ≤ 255) :
    cstr (strncpy domain 255 ++ [0]) = cstr domain := by
  rw [cstr_strncpy, List.take_of_length_le h]

theorem copied_out (old payload out : List Nat) :
    (write_bytes out 0
      ((write_bytes old 0 (payload.take payload.length)).take payload.length)).take
        payload.length = payload := by
  simp only [write_bytes, List.take_zero, List.nil_append, List.take_length]
  have h1 : List.take payload.length (payload ++ List.drop (0 + payload.length) old) = payload :=
    List.take_left' rfl
  rw [h1]
  exact List.take_left' rfl

/-! ## Byte order -/

theorem store16_length (abi : Abi) (v : Nat) : (store16 abi v).length = 2 := by
  unfold store16; split <;> rfl

theorem header_bytes_length (abi : Abi) (h : dns_header) : (header_bytes abi h).length = 12 := by
  simp [header_bytes, store16_length]

theorem store16_htons (abi : Abi) (v : Nat) : store16 abi (htons abi v) = be16_bytes v := by
  unfold store16 htons be16_bytes bswap16
  cases abi.little_endian
  · simp only [Bool.false_eq_true, if_false, List.cons.injEq, and_true]
    constructor <;> omega
  · simp only [if_true, List.cons.injEq, and_true]
    have ha : v % 256 < 256 := Nat.mod_lt _ (by decide)
    have hb : v / 256 % 256 < 256 := Nat.mod_lt _ (by decide)
    generalize v % 256 = a at ha ⊢
    generalize v / 256 % 256 = b at hb ⊢
    constructor <;> omega

theorem ntohs_load16 (abi : Abi) (b0 b1 : Nat) (h0 : b0 < 256) (h1 : b1 < 256) :
    ntohs abi (load16 abi b0 b1) = be16 b0 b1 := by
  unfold ntohs load16 be16 bswap16
  cases abi.little_endian
  · simp only [Bool.false_eq_true, if_false]; omega
  · simp only [if_true]; omega

theorem byte_at_lt (mem : List Nat) (hb : IsBytes mem) (i : Nat) : byte_at mem i < 256 := by
  unfold byte_at
  rw [List.getD_eq_getElem?_getD]
  cases h : mem[i]? with
  | none => simp
  | some b =>
    have := List.getElem?_mem h
    simpa using hb b this

theorem init_query_header_bytes (abi : Abi) (query_id : Nat) (domain_name : List Nat)
    (type : Nat) :
    header_bytes abi (init_query abi query_id domain_name type).1.header =
      store16 abi ((query_id + 1) % 65536) ++ [1, 0, 0, 1, 0, 0, 0, 0, 0, 0] := by
  have h0 : store16 abi 0 = [0, 0] := by unfold store16; split <;> rfl
  simp only [init_query, header_bytes, store16_htons, h0, be16_bytes]
  simp

theorem parse_response_flags (abi : Abi) (response : List Nat) (response_len : Nat)
    (query : dns_query) (hb : IsBytes response) (hlen : ¬ response_len < 12) :
    parse_response abi response response_len query =
      (if be16 (byte_at response 2) (byte_at response 3) % 16 ≠ 0 then -1 else 0,
       { query with header :=
          { id := load16 abi (byte_at response 0) (byte_at response 1),
            flags := be16 (byte_at response 2) (byte_at response 3),
            qdcount := be16 (byte_at response 4) (byte_at response 5),
            ancount := be16 (byte_at response 6) (byte_at response 7),
            nscount := be16 (byte_at response 8) (byte_at response 9),
            arcount := be16 (byte_at response 10) (byte_at response 11) } }) := by
  have hand : ∀ x : Nat, x &&& 15 = x % 16 := fun x => Nat.and_pow_two_sub_one_eq_mod x 4
  have hbt := byte_at_lt response hb
  simp only [parse_response, sizeof_dns_header, hlen, if_false, hand,
    ntohs_load16 abi _ _ (hbt _) (hbt _)]
  split_ifs <;> rfl

/-! ## The label loop of `encode_domain_name` -/

/-- Return value of the loop on a string `s` followed by its terminator, when
the output region is large enough for the whole name. -/
theorem encode_loop_ret (off buffer_len : Nat) (junk : List Nat) (s : List Nat) :
    ∀ (label : List Nat) (pos : Nat) (buffer : List Nat),
      (∀ c ∈ s, c ≠ 0) →
      pos + (label.length + s.length + 2) ≤ buffer_len →
      (encode_domain_name_loop off buffer_len (s ++ 0 :: junk) label pos buffer).1 =
        if ∀ l ∈ labels_from label s, valid_label l then
          ((pos + (label.length + s.length + 2) : Nat) : Int)
        else -1 := by
  induction s with
  | nil =>
    intro label pos buffer _ hcap
    simp only [List.nil_append, encode_domain_name_loop, labels_from, List.mem_singleton,
      forall_eq, valid_label, List.length_nil] at hcap ⊢
    by_cases hv : 1 ≤ label.length ∧ label.length ≤ 63
    · have h1 : ¬ (label.length = 0 ∨ label.length > 63) := by omega
      have h2 : ¬ (pos + label.length + 1 > buffer_len) := by omega
      have h3 : ¬ (pos + 1 + label.length + 1 > buffer_len) := by omega
      simp only [h1, h2, h3, hv, if_false, if_true, or_true, and_self]
      congr 1; omega
    · have h1 : (label.length = 0 ∨ label.length > 63) := by omega
      simp only [h1, hv, if_true, if_false, or_true]
  | cons c s ih =>
    intro label pos buffer hnz hcap
    have hc0 : c ≠ 0 := hnz c (List.mem_cons_self _ _)
    have hnz1 : ∀ d ∈ s, d ≠ 0 := fun d hd => hnz d (List.mem_cons_of_mem _ hd)
    simp only [List.length_cons] at hcap
    by_cases hc : c = 46
    · subst hc
      simp only [List.cons_append, encode_domain_name_loop, labels_from_cons_dot,
        List.forall_mem_cons, true_or, if_true]
      by_cases hv : valid_label label
      · have hv1 := hv
        unfold valid_label at hv1
        have h1 : ¬ (label.length = 0 ∨ label.length > 63) := by omega
        have h2 : ¬ (pos + label.length + 1 > buffer_len) := by omega
        simp only [h1, h2, if_false, hv, true_and]
        have h46 : ¬ ((46 : Nat) = 0) := by decide
        simp only [h46, if_false, List.append_eq]
        rw [ih [] (pos + 1 + label.length) _ hnz1 (by simp only [List.length_nil]; omega)]
        simp only [List.length_nil, List.length_cons]
        by_cases hr : ∀ l ∈ labels_from [] s, valid_label l
        · simp only [if_pos hr]; congr 1; omega
        · simp only [if_neg hr]
      · have hv1 := hv
        unfold valid_label at hv1
        have h1 : (label.length = 0 ∨ label.length > 63) := by omega
        simp only [h1, if_true, hv, false_and, if_false]
    · have hcc : ¬ (c = 46 ∨ c = 0) := by
        intro h; cases h with
        | inl h => exact hc h
        | inr h => exact hc0 h
      simp only [List.cons_append, encode_domain_name_loop, hcc, if_false,
        labels_from_cons_other label s c hc, List.append_eq]
      rw [ih (label ++ [c]) pos buffer hnz1
        (by simp only [List.length_append, List.length_singleton]; omega)]
      simp only [List.length_append, List.length_singleton, List.length_cons, List.length_nil]
      by_cases hr : ∀ l ∈ labels_from (label ++ [c]) s, valid_label l
      · simp only [if_pos hr]; congr 1; omega
      · simp only [if_neg hr]

/-- Buffer contents after the loop on a name whose labels are all valid, when
the output region is large enough and lies inside the buffer. -/
theorem encode_loop_buf (off buffer_len : Nat) (junk : List Nat) (s : List Nat) :
    ∀ (label : List Nat) (pos : Nat) (buffer : List Nat),
      (∀ c ∈ s, c ≠ 0) →
      (∀ l ∈ labels_from label s, valid_label l) →
      pos + (label.length + s.length + 2) ≤ buffer_len →
      off + pos + (label.length + s.length + 2) ≤ buffer.length →
      (encode_domain_name_loop off buffer_len (s ++ 0 :: junk) label pos buffer).2 =
        write_bytes buffer (off + pos) (wire_labels (labels_from label s) ++ [0]) := by
  induction s with
  | nil =>
    intro label pos buffer _ hv hcap hbuf
    have hv1 : valid_label label := hv label (by simp [labels_from])
    unfold valid_label at hv1
    simp only [List.length_nil] at hcap hbuf
    have h1 : ¬ (label.length = 0 ∨ label.length > 63) := by omega
    have h2 : ¬ (pos + label.length + 1 > buffer_len) := by omega
    have h3 : ¬ (pos + 1 + label.length + 1 > buffer_len) := by omega
    simp only [List.nil_append, encode_domain_name_loop, h1, h2, h3, if_false, if_true, or_true,
      labels_from, wire_labels, List.flatMap_cons, List.flatMap_nil, List.append_nil]
    have e1 : off + (pos + 1) = off + pos + 1 := by omega
    rw [e1, write_label buffer (off + pos) label hv1.2 (by omega)]
    have e2 : off + (pos + 1 + label.length) = off + pos + (label.length :: label).length := by
      simp only [List.length_cons]; omega
    rw [e2, write_bytes_append buffer (off + pos) (label.length :: label) [0]
      (by simp only [List.length_cons]; omega)]
  | cons c s ih =>
    intro label pos buffer hnz hv hcap hbuf
    have hc0 : c ≠ 0 := hnz c (List.mem_cons_self _ _)
    have hnz1 : ∀ d ∈ s, d ≠ 0 := fun d hd => hnz d (List.mem_cons_of_mem _ hd)
    simp only [List.length_cons] at hcap hbuf
    by_cases hc : c = 46
    · subst hc
      rw [labels_from_cons_dot] at hv
      have hv1 : valid_label label := hv label (List.mem_cons_self _ _)
      have hvr : ∀ l ∈ labels_from [] s, valid_label l :=
        fun l hl => hv l (List.mem_cons_of_mem _ hl)
      unfold valid_label at hv1
      have h1 : ¬ (label.length = 0 ∨ label.length > 63) := by omega
      have h2 : ¬ (pos + label.length + 1 > buffer_len) := by omega
      have h46 : ¬ ((46 : Nat) = 0) := by decide
      simp only [List.cons_append, encode_domain_name_loop, labels_from_cons_dot,
        true_or, if_true, h1, h2, h46, if_false, List.append_eq]
      have e1 : off + (pos + 1) = off + pos + 1 := by omega
      rw [e1, write_label buffer (off + pos) label hv1.2 (by omega)]
      have hlen : (write_bytes buffer (off + pos) (label.length :: label)).length = buffer.length :=
        write_bytes_length _ _ _ (by simp only [List.length_cons]; omega)
      rw [ih [] (pos + 1 + label.length) _ hnz1 hvr (by simp only [List.length_nil]; omega)
        (by rw [hlen]; simp only [List.length_nil]; omega)]
      have e2 : off + (pos + 1 + label.length) = off + pos + (label.length :: label).length := by
        simp only [List.length_cons]; omega
      rw [e2, write_bytes_append buffer (off + pos) (label.length :: label) _
        (by simp only [List.length_cons]; omega)]
      simp [wire_labels]
    · have hcc : ¬ (c = 46 ∨ c = 0) := by
        intro h; cases h with
        | inl h => exact hc h
        | inr h => exact hc0 h
      rw [labels_from_cons_other label s c hc] at hv
      simp only [List.cons_append, encode_domain_name_loop, hcc, if_false,
        labels_from_cons_other label s c hc, List.append_eq]
      exact ih (label ++ [c]) pos buffer hnz1 hv
        (by simp only [List.length_append, List.length_singleton]; omega)
        (by simp only [List.length_append, List.length_singleton]; omega)

/-- The loop never touches the bytes in front of the output pointer. -/
theorem encode_loop_take (off buffer_len : Nat) (p : List Nat) :
    ∀ (label : List Nat) (pos : Nat) (buffer : List Nat), off ≤ buffer.length →
      (encode_domain_name_loop off buffer_len p label pos buffer).2.take off = buffer.take off := by
  induction p with
  | nil => intro label pos buffer _; simp [encode_domain_name_loop]
  | cons c p ih =>
    intro label pos buffer hoff
    have w1 := write_bytes_take buffer off (off + pos) [label.length % 256] (by omega) hoff
    have w2 := write_bytes_take (write_bytes buffer (off + pos) [label.length % 256]) off
      (off + (pos + 1)) label (by omega) w1.2
    have w3 := write_bytes_take (write_bytes (write_bytes buffer (off + pos) [label.length % 256])
      (off + (pos + 1)) label) off (off + (pos + 1 + label.length)) [0] (by omega) w2.2
    simp only [encode_domain_name_loop]
    split_ifs
    · rfl
    · rfl
    · rw [w2.1, w1.1]
    · rw [w3.1, w2.1, w1.1]
    · rw [ih [] _ _ w2.2, w2.1, w1.1]
    · exact ih _ _ _ hoff

theorem encode_domain_name_ret (domain buffer : List Nat) (off buffer_len : Nat)
    (hcap : (cstr domain).length + 2 ≤ buffer_len) :
    (encode_domain_name domain buffer off buffer_len).1 =
      if ∀ l ∈ (cstr domain).splitOn 46, valid_label l then
        (((cstr domain).length + 2 : Nat) : Int)
      else -1 := by
  obtain ⟨junk, hj⟩ := cstr_split domain
  unfold encode_domain_name
  rw [hj, encode_loop_ret off buffer_len junk (cstr domain) [] 0 buffer (cstr_ne_zero domain)
    (by simp only [List.length_nil]; omega), labels_from_nil]
  simp only [List.length_nil, Nat.zero_add]

theorem encode_domain_name_buf (domain buffer : List Nat) (off buffer_len : Nat)
    (hv : ∀ l ∈ (cstr domain).splitOn 46, valid_label l)
    (hcap : (cstr domain).length + 2 ≤ buffer_len)
    (hbuf : off + ((cstr domain).length + 2) ≤ buffer.length) :
    (encode_domain_name domain buffer off buffer_len).2 =
      write_bytes buffer off (wire_labels ((cstr domain).splitOn 46) ++ [0]) := by
  obtain ⟨junk, hj⟩ := cstr_split domain
  unfold encode_domain_name
  rw [hj, encode_loop_buf off buffer_len junk (cstr domain) [] 0 buffer (cstr_ne_zero domain)
    (by rw [labels_from_nil]; exact hv)
    (by simp only [List.length_nil]; omega) (by simp only [List.length_nil]; omega),
    labels_from_nil]
  simp only [Nat.add_zero]

/-! ## `construct_query` in closed form -/

/-- Return value of `construct_query` when the capacity is at least 512 and the
name is at most 255 bytes. -/
theorem construct_query_ret (abi : Abi) (query : dns_query) (buffer : List Nat) (buffer_len : Nat)
    (hname : (cstr query.name).length ≤ 255) (hcap : 512 ≤ buffer_len) :
    (construct_query abi query buffer buffer_len).1 =
      if ∀ l ∈ (cstr query.name).splitOn 46, valid_label l then 0 else -1 := by
  have h512 : ¬ buffer_len < 512 := by omega
  have hret := encode_domain_name_ret query.name
    (write_bytes buffer 0 (header_bytes abi query.header)) sizeof_dns_header
    (buffer_len - sizeof_dns_header) (by simp only [sizeof_dns_header]; omega)
  simp only [construct_query, h512, if_false]
  by_cases hv : ∀ l ∈ (cstr query.name).splitOn 46, valid_label l
  · rw [if_pos hv] at hret
    rw [if_pos hv, hret]
    have h1 : ¬ (((((cstr query.name).length + 2 : Nat) : Int)) < 0) := by omega
    have h2 : ¬ (sizeof_dns_header + (((cstr query.name).length + 2 : Nat) : Int).toNat + 4
        > buffer_len) := by
      simp only [sizeof_dns_header, Int.toNat_ofNat]; omega
    simp only [h1, h2, if_false]
  · rw [if_neg hv] at hret
    rw [if_neg hv, hret]
    simp

/-- Result of a successful `construct_query` in closed form. -/
theorem construct_query_ok (abi : Abi) (query : dns_query) (buffer : List Nat) (buffer_len : Nat)
    (hname : (cstr query.name).length ≤ 255)
    (hv : ∀ l ∈ (cstr query.name).splitOn 46, valid_label l)
    (hcap : 512 ≤ buffer_len) (hbuf : buffer_len ≤ buffer.length) :
    construct_query abi query buffer buffer_len =
      (0,
       write_bytes buffer 0
         (header_bytes abi query.header ++ (wire_labels ((cstr query.name).splitOn 46) ++ [0]) ++
           be16_bytes query.qtype ++ store16 abi query.qclass),
       12 + ((cstr query.name).length + 2) + 4) := by
  have h512 : ¬ buffer_len < 512 := by omega
  have hlen1 : (write_bytes buffer 0 (header_bytes abi query.header)).length = buffer.length :=
    write_bytes_length _ _ _ (by rw [header_bytes_length]; omega)
  have hret := encode_domain_name_ret query.name
    (write_bytes buffer 0 (header_bytes abi query.header)) sizeof_dns_header
    (buffer_len - sizeof_dns_header) (by simp only [sizeof_dns_header]; omega)
  rw [if_pos hv] at hret
  have hb := encode_domain_name_buf query.name
    (write_bytes buffer 0 (header_bytes abi query.header)) sizeof_dns_header
    (buffer_len - sizeof_dns_header) hv (by simp only [sizeof_dns_header]; omega)
    (by rw [hlen1]; simp only [sizeof_dns_header]; omega)
  have h1 : ¬ (((((cstr query.name).length + 2 : Nat) : Int)) < 0) := by omega
  have h2 : ¬ (sizeof_dns_header + (((cstr query.name).length + 2 : Nat) : Int).toNat + 4
      > buffer_len) := by
    simp only [sizeof_dns_header, Int.toNat_ofNat]; omega
  simp only [construct_query, h512, if_false, hret, hb, h1, h2, store16_htons]
  simp only [sizeof_dns_header, Int.toNat_ofNat]
  refine Prod.ext rfl (Prod.ext ?_ rfl)
  simp only
  simp only [sizeof_dns_header] at hb
  set H := header_bytes abi query.header with hH
  set W := wire_labels ((cstr query.name).splitOn 46) ++ [0] with hW
  have hHl : H.length = 12 := header_bytes_length abi query.header
  have hWl : W.length = (cstr query.name).length + 2 := wire_name_length _
  have a1 : write_bytes (write_bytes buffer 0 H) 12 W = write_bytes buffer 0 (H ++ W) := by
    have := write_bytes_append buffer 0 H W (by omega)
    rw [hHl] at this; simpa using this
  have a2 : write_bytes (write_bytes buffer 0 (H ++ W)) (12 + ((cstr query.name).length + 2))
      (be16_bytes query.qtype) = write_bytes buffer 0 (H ++ W ++ be16_bytes query.qtype) := by
    have := write_bytes_append buffer 0 (H ++ W) (be16_bytes query.qtype)
      (by simp only [List.length_append, hHl, hWl]; omega)
    simp only [List.length_append, hHl, hWl, Nat.zero_add] at this
    exact this
  have a3 : write_bytes (write_bytes buffer 0 (H ++ W ++ be16_bytes query.qtype))
      (12 + ((cstr query.name).length + 2) + 2) (store16 abi query.qclass) =
      write_bytes buffer 0 (H ++ W ++ be16_bytes query.qtype ++ store16 abi query.qclass) := by
    have := write_bytes_append buffer 0 (H ++ W ++ be16_bytes query.qtype)
      (store16 abi query.qclass)
      (by simp only [List.length_append, hHl, hWl, be16_bytes, List.length_cons,
            List.length_nil]; omega)
    simp only [List.length_append, hHl, hWl, be16_bytes, List.length_cons, List.length_nil,
      Nat.zero_add] at this
    exact this
  rw [a1, a2, a3]

/-- With capacity at least 512 the first 12 bytes of the buffer after
`construct_query` are the header as it lies in host memory, on success and on
failure alike. -/
theorem construct_query_header (abi : Abi) (query : dns_query) (buffer : List Nat)
    (buffer_len : Nat) (hcap : 512 ≤ buffer_len) :
    (construct_query abi query buffer buffer_len).2.1.take 12 = header_bytes abi query.header := by
  have h512 : ¬ buffer_len < 512 := by omega
  have hH : (header_bytes abi query.header).length = 12 := header_bytes_length abi query.header
  have t0 : (write_bytes buffer 0 (header_bytes abi query.header)).take 12 =
      header_bytes abi query.header := by
    simp only [write_bytes, List.take_zero, List.nil_append]
    rw [← hH]; exact List.take_left' rfl
  have l0 : 12 ≤ (write_bytes buffer 0 (header_bytes abi query.header)).length := by
    simp only [write_bytes, List.length_append, hH]; omega
  have t1 := encode_loop_take 12 (buffer_len - 12) (query.name ++ [0]) [] 0 _ l0
  have l1 : 12 ≤ (encode_domain_name_loop 12 (buffer_len - 12) (query.name ++ [0]) [] 0
      (write_bytes buffer 0 (header_bytes abi query.header))).2.length := by
    have := congrArg List.length t1
    simp only [List.length_take] at this
    omega
  simp only [construct_query, h512, if_false, sizeof_dns_header, encode_domain_name]
  split_ifs
  · simp only; rw [t1, t0]
  · simp only; rw [t1, t0]
  · simp only
    have w1 := write_bytes_take (encode_domain_name_loop 12 (buffer_len - 12) (query.name ++ [0])
      [] 0 (write_bytes buffer 0 (header_bytes abi query.header))).2 12
      (12 + (encode_domain_name_loop 12 (buffer_len - 12) (query.name ++ [0])
      [] 0 (write_bytes buffer 0 (header_bytes abi query.header))).1.toNat)
      (store16 abi (htons abi query.qtype)) (by omega) l1
    have w2 := write_bytes_take _ 12
      (12 + (encode_domain_name_loop 12 (buffer_len - 12) (query.name ++ [0])
      [] 0 (write_bytes buffer 0 (header_bytes abi query.header))).1.toNat + 2)
      (store16 abi query.qclass) (by omega) w1.2
    rw [w2.1, w1.1, t1, t0]

/-! ## Cache lemmas -/

theorem cache_init_ready (s : cache_state) (cfg : cache_config) (h : 0 < cfg.max_entries) :
    cache_ready (cache_init s cfg true) := by
  unfold cache_ready cache_init
  simp only [if_true, List.length_replicate]
  exact ⟨trivial, h⟩

theorem cache_ready_slot (abi : Abi) (s : cache_state) (domain : List Nat) (hs : cache_ready s) :
    ∃ entries old, s.cache = some entries ∧ entries.length = s.config.max_entries ∧
      hash_domain abi domain % s.config.max_entries < entries.length ∧
      entries[hash_domain abi domain % s.config.max_entries]? = some old := by
  unfold cache_ready at hs
  cases hc : s.cache with
  | none => rw [hc] at hs; exact hs.elim
  | some entries =>
    rw [hc] at hs
    have hlt : hash_domain abi domain % s.config.max_entries < entries.length := by
      rw [hs.1]; exact Nat.mod_lt _ hs.2
    exact ⟨entries, entries[hash_domain abi domain % s.config.max_entries], rfl, hs.1, hlt,
      List.getElem?_eq_getElem hlt⟩

theorem cache_insert_frame (abi : Abi) (s : cache_state) (now : Int) (domain response : List Nat)
    (response_len ttl : Nat) (hs : cache_ready s) :
    cache_ready (cache_insert abi s now domain response response_len ttl) ∧
    (cache_insert abi s now domain response response_len ttl).config = s.config ∧
    (cache_insert abi s now domain response response_len ttl).hit_count = s.hit_count ∧
    (cache_insert abi s now domain response response_len ttl).miss_count = s.miss_count := by
  obtain ⟨entries, old, hc, hlen, hlt, hold⟩ := cache_ready_slot abi s domain hs
  have hs1 := hs
  unfold cache_ready at hs1
  rw [hc] at hs1
  unfold cache_insert
  rw [hc]
  simp only [hold]
  by_cases h512 : response_len > sizeof_response
  · simp only [h512, if_true, and_self, and_true]
    unfold cache_ready
    rw [hc]
    exact hs1
  · simp only [h512, if_false, and_self, and_true]
    unfold cache_ready
    simp only [List.length_set]
    exact hs1

theorem cache_insert_slot (abi : Abi) (s : cache_state) (now : Int) (domain response : List Nat)
    (response_len ttl : Nat) (hs : cache_ready s) (hl : response_len ≤ 512) :
    ∃ old, cache_slot s (slot_index abi s domain) = some old ∧
      cache_slot (cache_insert abi s now domain response response_len ttl)
        (slot_index abi s domain) =
        some (inserted_entry s old now domain response response_len ttl) := by
  obtain ⟨entries, old, hc, hlen, hlt, hold⟩ := cache_ready_slot abi s domain hs
  refine ⟨old, ?_, ?_⟩
  · unfold cache_slot slot_index; rw [hc]; exact hold
  · have h512 : ¬ response_len > sizeof_response := by unfold sizeof_response; omega
    unfold cache_slot slot_index cache_insert
    rw [hc]
    simp only [hold, h512, if_false]
    rw [List.getElem?_set_self hlt]
    rfl

theorem cache_lookup_hit (abi : Abi) (s : cache_state) (now : Int) (domain response : List Nat)
    (response_len : Nat) (e : cache_entry)
    (hslot : cache_slot s (slot_index abi s domain) = some e)
    (hvalid : e.valid = true) (hkey : cstr e.domain = cstr domain)
    (hfresh : now - e.timestamp ≤ (e.ttl : Int)) :
    cache_lookup abi s now domain response response_len =
      (true, { s with hit_count := (s.hit_count + 1) % 2 ^ 64 },
        write_bytes response 0 (e.response.take e.response_len), e.response_len) := by
  unfold cache_slot slot_index at hslot
  unfold cache_lookup
  cases hc : s.cache with
  | none => rw [hc] at hslot; cases hslot
  | some entries =>
    rw [hc] at hslot
    simp only at hslot
    have hnot : ¬ (now - e.timestamp > (e.ttl : Int)) := by omega
    simp only [hslot, hvalid, strcmp_eq, hkey, beq_self_eq_true, and_self, if_true, hnot,
      if_false]

theorem cache_lookup_stale (abi : Abi) (s : cache_state) (now : Int) (domain response : List Nat)
    (response_len : Nat) (e : cache_entry)
    (hslot : cache_slot s (slot_index abi s domain) = some e)
    (hvalid : e.valid = true) (hkey : cstr e.domain = cstr domain)
    (hstale : now - e.timestamp > (e.ttl : Int)) :
    (cache_lookup abi s now domain response response_len).1 = false ∧
    (cache_lookup abi s now domain response response_len).2.1.miss_count =
      (s.miss_count + 1) % 2 ^ 64 ∧
    (cache_lookup abi s now domain response response_len).2.1.hit_count = s.hit_count ∧
    (cache_lookup abi s now domain response response_len).2.1.config = s.config ∧
    cache_slot (cache_lookup abi s now domain response response_len).2.1
      (slot_index abi s domain) = some { e with valid := false } ∧
    (cache_lookup abi s now domain response response_len).2.2 = (response, response_len) := by
  unfold cache_slot slot_index at hslot
  unfold cache_lookup
  cases hc : s.cache with
  | none => rw [hc] at hslot; cases hslot
  | some entries =>
    rw [hc] at hslot
    simp only at hslot
    have hlt : hash_domain abi domain % s.config.max_entries < entries.length := by
      by_contra hge
      rw [List.getElem?_eq_none (by omega)] at hslot
      cases hslot
    simp only [hslot, hvalid, strcmp_eq, hkey, beq_self_eq_true, and_self, if_true, hstale,
      cache_slot, slot_index, List.getElem?_set_self hlt]

theorem cache_lookup_other (abi : Abi) (s : cache_state) (now : Int) (domain response : List Nat)
    (response_len : Nat) (e : cache_entry)
    (hslot : cache_slot s (slot_index abi s domain) = some e)
    (hno : ¬ (e.valid = true ∧ cstr e.domain = cstr domain)) :
    cache_lookup abi s now domain response response_len =
      (false, { s with miss_count := (s.miss_count + 1) % 2 ^ 64 }, response, response_len) := by
  unfold cache_slot slot_index at hslot
  unfold cache_lookup
  cases hc : s.cache with
  | none => rw [hc] at hslot; cases hslot
  | some entries =>
    rw [hc] at hslot
    simp only at hslot
    have hno1 : ¬ (e.valid = true ∧ strcmp_eq e.domain domain = true) := by
      simpa [strcmp_eq] using hno
    simp only [hslot, hno1, if_false]

/-! ## Cleanup, `process_packet`, the transmit path and the hash -/

theorem cache_ready_sized (s : cache_state) (h : cache_ready s) : cache_sized s := by
  unfold cache_ready at h
  unfold cache_sized
  cases hc : s.cache with
  | none => trivial
  | some entries => rw [hc] at h; exact h.1

theorem cache_cleanup_loop_getElem (now : Int) :
    ∀ (n i : Nat) (entries : List cache_entry) (cleaned j : Nat),
      (cache_cleanup_loop now n i entries cleaned).1[j]? =
        if i ≤ j ∧ j < i + n then (entries[j]?).map (cleaned_entry now) else entries[j]? := by
  intro n
  induction n with
  | zero =>
    intro i entries cleaned j
    have : ¬ (i ≤ j ∧ j < i + 0) := by omega
    simp only [cache_cleanup_loop, this, if_false]
  | succ n ih =>
    intro i entries cleaned j
    unfold cache_cleanup_loop
    cases he : entries[i]? with
    | none =>
      simp only
      rw [ih]
      by_cases hj : j = i
      · subst hj
        have h1 : ¬ (j + 1 ≤ j ∧ j < j + 1 + n) := by omega
        simp only [h1, if_false, he, Option.map_none', ite_self]
      · by_cases hr : i ≤ j ∧ j < i + (n + 1)
        · have h1 : i + 1 ≤ j ∧ j < i + 1 + n := by omega
          simp only [h1, hr, and_self, if_true]
        · have h1 : ¬ (i + 1 ≤ j ∧ j < i + 1 + n) := by omega
          simp only [h1, hr, if_false]
    | some e =>
      simp only
      by_cases hst : e.valid = true ∧ now - e.timestamp > (e.ttl : Int)
      · simp only [hst, and_self, if_true]
        rw [ih]
        have hce : cleaned_entry now e = { e with valid := false } := by
          simp only [cleaned_entry, hst, and_self, if_true]
        have hi : i < entries.length := by
          by_contra hge
          rw [List.getElem?_eq_none (by omega)] at he
          cases he
        by_cases hj : j = i
        · subst hj
          have h1 : ¬ (j + 1 ≤ j ∧ j < j + 1 + n) := by omega
          have h2 : j ≤ j ∧ j < j + (n + 1) := by omega
          simp only [h1, h2, and_self, if_false, if_true, he, Option.map_some', hce,
            List.getElem?_set_self hi]
        · have hne : i ≠ j := fun h => hj h.symm
          rw [List.getElem?_set_ne hne]
          by_cases hr : i ≤ j ∧ j < i + (n + 1)
          · have h1 : i + 1 ≤ j ∧ j < i + 1 + n := by omega
            simp only [h1, hr, and_self, if_true]
          · have h1 : ¬ (i + 1 ≤ j ∧ j < i + 1 + n) := by omega
            simp only [h1, hr, if_false]
      · simp only [hst, if_false]
        rw [ih]
        have hce : cleaned_entry now e = e := by
          simp only [cleaned_entry, hst, if_false]
        by_cases hj : j = i
        · subst hj
          have h1 : ¬ (j + 1 ≤ j ∧ j < j + 1 + n) := by omega
          have h2 : j ≤ j ∧ j < j + (n + 1) := by omega
          simp only [h1, h2, and_self, if_false, if_true, he, Option.map_some', hce]
        · by_cases hr : i ≤ j ∧ j < i + (n + 1)
          · have h1 : i + 1 ≤ j ∧ j < i + 1 + n := by omega
            simp only [h1, hr, and_self, if_true]
          · have h1 : ¬ (i + 1 ≤ j ∧ j < i + 1 + n) := by omega
            simp only [h1, hr, if_false]

theorem cache_cleanup_slot (s : cache_state) (now : Int) (hs : cache_sized s) (i : Nat) :
    cache_slot (cache_cleanup s now).1 i = (cache_slot s i).map (cleaned_entry now) := by
  unfold cache_sized at hs
  unfold cache_slot cache_cleanup
  cases hc : s.cache with
  | none => simp only [hc, Option.map_none']
  | some entries =>
    rw [hc] at hs
    simp only at hs
    simp only
    rw [cache_cleanup_loop_getElem]
    by_cases hi : i < entries.length
    · have h1 : 0 ≤ i ∧ i < 0 + s.config.max_entries := by omega
      simp only [h1, and_self, if_true]
    · have h1 : ¬ (0 ≤ i ∧ i < 0 + s.config.max_entries) := by omega
      simp only [h1, if_false, List.getElem?_eq_none (Nat.le_of_not_lt hi), Option.map_none']

theorem cache_cleanup_frame (s : cache_state) (now : Int) :
    (cache_cleanup s now).1.hit_count = s.hit_count ∧
    (cache_cleanup s now).1.miss_count = s.miss_count ∧
    (cache_cleanup s now).1.config = s.config := by
  unfold cache_cleanup
  cases s.cache <;> exact ⟨rfl, rfl, rfl⟩

theorem cache_lookup_miss_output (abi : Abi) (s : cache_state) (now : Int)
    (domain response : List Nat) (response_len : Nat)
    (h : (cache_lookup abi s now domain response response_len).1 = false) :
    (cache_lookup abi s now domain response response_len).2.2 = (response, response_len) := by
  revert h
  unfold cache_lookup
  cases s.cache with
  | none => intro _; rfl
  | some entries =>
    simp only
    cases entries[hash_domain abi domain % s.config.max_entries]? with
    | none => intro _; rfl
    | some e =>
      simp only
      split_ifs <;> simp

theorem cache_insert_other_slots (abi : Abi) (s : cache_state) (now : Int)
    (domain response : List Nat) (response_len ttl j : Nat)
    (hj : j ≠ hash_domain abi domain % s.config.max_entries) :
    cache_slot (cache_insert abi s now domain response response_len ttl) j = cache_slot s j := by
  unfold cache_slot cache_insert
  cases hc : s.cache with
  | none => simp only [hc]
  | some entries =>
    simp only
    by_cases h512 : response_len > sizeof_response
    · simp only [h512, if_true, hc]
    · simp only [h512, if_false]
      cases he : entries[hash_domain abi domain % s.config.max_entries]? with
      | none => simp only [hc]
      | some e =>
        simp only
        exact List.getElem?_set_ne (fun h => hj h.symm)

theorem cache_lookup_other_slots (abi : Abi) (s : cache_state) (now : Int)
    (domain response : List Nat) (response_len j : Nat)
    (hj : j ≠ hash_domain abi domain % s.config.max_entries) :
    cache_slot (cache_lookup abi s now domain response response_len).2.1 j = cache_slot s j := by
  unfold cache_slot cache_lookup
  cases hc : s.cache with
  | none => simp only [hc]
  | some entries =>
    simp only
    cases he : entries[hash_domain abi domain % s.config.max_entries]? with
    | none => simp only [hc]
    | some e =>
      simp only
      split_ifs
      · simp only
        exact List.getElem?_set_ne (fun h => hj h.symm)
      · simp only [hc]
      · simp only [hc]

theorem cache_lookup_returns_iff (abi : Abi) (s : cache_state) (now : Int)
    (domain response : List Nat) (response_len : Nat) :
    (cache_lookup abi s now domain response response_len).1 = true ↔
      ∃ e, cache_slot s (hash_domain abi domain % s.config.max_entries) = some e ∧
        e.valid = true ∧ cstr e.domain = cstr domain ∧ now - e.timestamp ≤ (e.ttl : Int) := by
  unfold cache_slot cache_lookup
  cases hc : s.cache with
  | none => simp
  | some entries =>
    simp only
    cases he : entries[hash_domain abi domain % s.config.max_entries]? with
    | none => simp
    | some e =>
      simp only [strcmp_eq, beq_iff_eq, Option.some.injEq, exists_eq_left']
      split_ifs with h1 h2
      · simp only [Bool.false_eq_true, false_iff, not_and, not_le]
        intro _ _; exact h2
      · simp only [true_iff]
        exact ⟨h1.1, h1.2, by omega⟩
      · simp only [Bool.false_eq_true, false_iff, not_and, not_le]
        intro hv hk
        exact absurd ⟨hv, hk⟩ h1

theorem process_packet_short (abi : Abi) (cs : cache_state) (xsk : xdp_socket)
    (now_lookup now_insert : Int) (stack packet : List Nat) (length : Nat) (h : length < 12) :
    process_packet abi cs xsk now_lookup now_insert stack packet length = (cs, xsk, []) := by
  simp only [process_packet, sizeof_dns_header, h, if_true]

theorem process_packet_hit (abi : Abi) (cs : cache_state) (xsk : xdp_socket)
    (now_lookup now_insert : Int) (stack packet : List Nat) (length : Nat) (h : 12 ≤ length)
    (hhit : (cache_lookup abi cs now_lookup (packet.drop 12) stack 512).1 = true) :
    process_packet abi cs xsk now_lookup now_insert stack packet length =
      ((cache_lookup abi cs now_lookup (packet.drop 12) stack 512).2.1,
       (af_xdp_socket_tx xsk (cache_lookup abi cs now_lookup (packet.drop 12) stack 512).2.2.1
         (cache_lookup abi cs now_lookup (packet.drop 12) stack 512).2.2.2).2,
       [((cache_lookup abi cs now_lookup (packet.drop 12) stack 512).2.2.1,
         (cache_lookup abi cs now_lookup (packet.drop 12) stack 512).2.2.2)]) := by
  have h12 : ¬ length < 12 := by omega
  simp only [process_packet, sizeof_dns_header, h12, if_false, hhit, if_true]

theorem process_packet_miss (abi : Abi) (cs : cache_state) (xsk : xdp_socket)
    (now_lookup now_insert : Int) (stack packet : List Nat) (length : Nat) (h : 12 ≤ length)
    (hmiss : (cache_lookup abi cs now_lookup (packet.drop 12) stack 512).1 = false) :
    process_packet abi cs xsk now_lookup now_insert stack packet length =
      if (parse_response abi packet length
          { header := header_of_bytes abi packet, qtype := 0, name := [], qclass := 0 }).1 = 0
      then
        (cache_insert abi (cache_lookup abi cs now_lookup (packet.drop 12) stack 512).2.1
           now_insert (packet.drop 12) stack 512 3600,
         (af_xdp_socket_tx xsk stack 512).2, [(stack, 512)])
      else ((cache_lookup abi cs now_lookup (packet.drop 12) stack 512).2.1, xsk, []) := by
  have h12 : ¬ length < 12 := by omega
  have hout := cache_lookup_miss_output abi cs now_lookup (packet.drop 12) stack 512 hmiss
  have ho1 : (cache_lookup abi cs now_lookup (packet.drop 12) stack 512).2.2.1 = stack := by
    rw [hout]
  have ho2 : (cache_lookup abi cs now_lookup (packet.drop 12) stack 512).2.2.2 = 512 := by
    rw [hout]
  simp only [process_packet, sizeof_dns_header, h12, if_false, hmiss, Bool.false_eq_true,
    ho1, ho2]

theorem complete_tx_effect (s : xdp_socket) :
    cq_entries (af_xdp_socket_complete_tx s) + drained s = cq_entries s ∧
    drained s =
      (if s.outstanding_tx = 0 then 0
       else if s.cq.cached = 0 then min s.cq.fresh 64 else min s.cq.cached 64) ∧
    (af_xdp_socket_complete_tx s).outstanding_tx =
      (if drained s = 0 then s.outstanding_tx
       else (s.outstanding_tx + 2 ^ 32 - drained s) % 2 ^ 32) ∧
    (af_xdp_socket_complete_tx s).cq.held = s.cq.held ∧
    (af_xdp_socket_complete_tx s).xsk = s.xsk ∧
    (af_xdp_socket_complete_tx s).umem = s.umem ∧
    (af_xdp_socket_complete_tx s).buffer = s.buffer ∧
    (af_xdp_socket_complete_tx s).tx_free = s.tx_free ∧
    (af_xdp_socket_complete_tx s).tx_ring = s.tx_ring := by
  unfold drained cq_entries af_xdp_socket_complete_tx xsk_ring_cons__release xsk_ring_cons__peek
    xsk_cons_nb_avail XSK_BATCH_SIZE
  by_cases h0 : s.outstanding_tx = 0
  · simp only [h0, if_true, Nat.sub_self, Nat.add_zero, and_self]
  · by_cases hc : s.cq.cached = 0
    · by_cases hm : min s.cq.fresh 64 > 0
      · simp only [h0, hc, hm, if_false, if_true]
        refine ⟨?_, ?_, ?_, ?_, trivial, trivial, trivial, trivial, trivial⟩ <;> (try split_ifs) <;> omega
      · have hm0 : min s.cq.fresh 64 = 0 := by omega
        have hf : s.cq.fresh = 0 := by omega
        simp only [h0, hc, hm, if_false, if_true, hf]
        simp
    · by_cases hm : min s.cq.cached 64 > 0
      · simp only [h0, hc, hm, if_false, if_true]
        refine ⟨?_, ?_, ?_, ?_, trivial, trivial, trivial, trivial, trivial⟩ <;> (try split_ifs) <;> omega
      · omega

/-- The completion ring holds no more entries than `outstanding_tx` counts: this
holds for the zeroed structure and is kept by `af_xdp_socket_tx`, which counts
each descriptor it submits, and by the kernel, which completes only submitted
descriptors that are not completed yet. -/
theorem completions_counted_tx (s : xdp_socket) (pkt : List Nat) (len : Nat)
    (hinv : cq_entries s ≤ s.outstanding_tx) (h32 : s.outstanding_tx + 1 < 2 ^ 32) :
    cq_entries xdp_socket.zeroed ≤ xdp_socket.zeroed.outstanding_tx ∧
    cq_entries (af_xdp_socket_tx s pkt len).2 ≤ (af_xdp_socket_tx s pkt len).2.outstanding_tx ∧
    (∀ n, cq_entries s + n ≤ s.outstanding_tx →
      cq_entries (kernel_completes s n) ≤ (kernel_completes s n).outstanding_tx) := by
  refine ⟨by decide, ?_, ?_⟩
  · unfold af_xdp_socket_tx cq_entries
    unfold cq_entries at hinv
    split_ifs
    · exact hinv
    · simp only; omega
  · intro n hn
    unfold kernel_completes cq_entries
    unfold cq_entries at hn
    simp only; omega

theorem hash_step_eq (abi : Abi) (hash b : Nat) :
    ((((((hash <<< 5) % 2 ^ 32 + hash) % 2 ^ 32 : Nat) : Int) + char_to_int abi b) %
      (2 ^ 32 : Int)).toNat = hash_step abi hash b := by
  unfold char_to_int hash_step
  rw [Nat.shiftLeft_eq]
  by_cases hs : abi.char_signed = true ∧ 128 ≤ b
  · simp only [hs, and_self, if_true]
    omega
  · simp only [hs, if_false]
    omega

theorem hash_domain_loop_eq (abi : Abi) (s : List Nat) (hnul : ∀ b ∈ s, b ≠ 0) :
    ∀ hash, hash_domain_loop abi s hash = s.foldl (hash_step abi) hash := by
  induction s with
  | nil => intro hash; rfl
  | cons b s ih =>
    intro hash
    have hb : b ≠ 0 := hnul b (List.mem_cons_self _ _)
    simp only [hash_domain_loop, hb, if_false, List.foldl_cons, hash_step_eq]
    exact ih (fun c hc => hnul c (List.mem_cons_of_mem _ hc)) _

theorem djb2_char_eq_djb2 (abi : Abi) (s : List Nat)
    (h : abi.char_signed = false ∨ ∀ b ∈ s, b < 128) :
    ∀ hash, s.foldl (hash_step abi) hash = s.foldl (fun hash b => (hash * 33 + b) % 2 ^ 32) hash := by
  induction s with
  | nil => intro hash; rfl
  | cons b s ih =>
    intro hash
    have hb : ¬ (abi.char_signed = true ∧ 128 ≤ b) := by
      rintro ⟨h1, h2⟩
      cases h with
      | inl h => rw [h] at h1; cases h1
      | inr h => have := h b (List.mem_cons_self _ _); omega
    have hstep : hash_step abi hash b = (hash * 33 + b) % 2 ^ 32 := by
      simp only [hash_step, hb, if_false]
    simp only [List.foldl_cons, hstep]
    exact ih (h.imp id (fun h c hc => h c (List.mem_cons_of_mem _ hc))) _

/-! ## Properties of the specification -/

/-- C1: a query built by `init_query` whose name splits at the dots into labels
of 1 to 63 bytes, encoded into a buffer of capacity at least 512, is encoded
successfully; from offset 12 on the buffer holds each label preceded by its
length byte, one zero byte, the query type as a big-endian 16-bit value and the
class 1 as a big-endian 16-bit value; the reported length is
`12 + (name length + 2) + 4`.  The name is at most 255 bytes by construction. -/
theorem construct_query_question_section (abi : Abi) (query_id : Nat) (domain_name : List Nat)
    (type : Nat) (buffer : List Nat) (buffer_len : Nat) (q : dns_query)
    (hq : q = (init_query abi query_id domain_name type).1)
    (hv : ∀ l ∈ (cstr q.name).splitOn 46, 1 ≤ l.length ∧ l.length ≤ 63)
    (hcap : 512 ≤ buffer_len) (hbuf : buffer_len ≤ buffer.length) :
    (cstr q.name).length ≤ 255 ∧
    (construct_query abi q buffer buffer_len).1 = 0 ∧
    (construct_query abi q buffer buffer_len).2.2 = 12 + ((cstr q.name).length + 2) + 4 ∧
    ((construct_query abi q buffer buffer_len).2.1.drop 12).take ((cstr q.name).length + 2 + 4) =
      wire_labels ((cstr q.name).splitOn 46) ++ [0] ++ be16_bytes type ++ be16_bytes 1 := by
  have hname : (cstr q.name).length ≤ 255 := by
    rw [hq, init_query_name]
    simp only [List.length_take]; omega
  have hqt : q.qtype = type := by rw [hq]; rfl
  have hqc : store16 abi q.qclass = be16_bytes 1 := by
    rw [hq]; exact store16_htons abi 1
  rw [construct_query_ok abi q buffer buffer_len hname hv hcap hbuf, hqt, hqc]
  refine ⟨hname, rfl, rfl, ?_⟩
  simp only [write_bytes, List.take_zero, List.nil_append, List.append_assoc]
  rw [List.drop_append_eq_append_drop, header_bytes_length]
  have hd : List.drop 12 (header_bytes abi q.header) = [] :=
    List.drop_eq_nil_of_le (by rw [header_bytes_length])
  rw [hd, List.nil_append]
  simp only [Nat.sub_self, List.drop_zero]
  have hl : (wire_labels ((cstr q.name).splitOn 46) ++ ([0] ++ (be16_bytes type ++ be16_bytes 1))).length
      = (cstr q.name).length + 2 + 4 := by
    have := wire_name_length (cstr q.name)
    simp only [List.length_append, List.length_singleton, be16_bytes, List.length_cons,
      List.length_nil] at this ⊢
    omega
  rw [← List.append_assoc, ← List.append_assoc, ← List.append_assoc, ← List.append_assoc]
  rw [List.append_assoc _ [0], List.append_assoc _ ([0] ++ _), List.append_assoc [0]]
  rw [← hl]
  exact List.take_left' rfl

theorem construct_query_question_section_witness :
    (∀ l ∈ (cstr (init_query Abi.x86_64 0 test_com 1).1.name).splitOn 46,
        1 ≤ l.length ∧ l.length ≤ 63) ∧
    (construct_query Abi.x86_64 (init_query Abi.x86_64 0 test_com 1).1
        (List.replicate 512 0) 512).1 = 0 ∧
    ((construct_query Abi.x86_64 (init_query Abi.x86_64 0 test_com 1).1
        (List.replicate 512 0) 512).2.1.drop 12).take 10 =
      [4, 116, 101, 115, 116, 3, 99, 111, 109, 0] := by
  have hv : ∀ l ∈ (cstr (init_query Abi.x86_64 0 test_com 1).1.name).splitOn 46,
      1 ≤ l.length ∧ l.length ≤ 63 := by decide
  have h := construct_query_question_section Abi.x86_64 0 test_com 1 (List.replicate 512 0) 512
    _ rfl hv (by decide) (by rw [List.length_replicate])
  refine ⟨hv, h.2.1, ?_⟩
  have h4 := congrArg (List.take 10) h.2.2.2
  rw [List.take_take] at h4
  have hn : cstr (init_query Abi.x86_64 0 test_com 1).1.name = test_com := by decide
  rw [hn] at h4
  exact h4.trans (by decide)

/-- C2: `parse_response` fails (returns -1) exactly when the length is below 12
or the low 4 bits of the big-endian flags field at bytes 2..3 are non-zero, and
succeeds (returns 0) in every other case. -/
theorem parse_response_fails_iff (abi : Abi) (response : List Nat) (response_len : Nat)
    (query : dns_query) (hb : IsBytes response) :
    ((parse_response abi response response_len query).1 = -1 ↔
      (response_len < 12 ∨ be16 (byte_at response 2) (byte_at response 3) % 16 ≠ 0)) ∧
    ((parse_response abi response response_len query).1 = 0 ↔
      ¬ (response_len < 12 ∨ be16 (byte_at response 2) (byte_at response 3) % 16 ≠ 0)) := by
  by_cases hlen : response_len < 12
  · have : parse_response abi response response_len query = (-1, query) := by
      simp only [parse_response, sizeof_dns_header, hlen, if_true]
    rw [this]
    simp [hlen]
  · rw [parse_response_flags abi response response_len query hb hlen]
    by_cases hr : be16 (byte_at response 2) (byte_at response 3) % 16 ≠ 0
    · simp [hlen, hr]
    · simp [hlen, hr]

theorem parse_response_fails_iff_witness :
    IsBytes [0, 0, 0x81, 0x83, 0, 0, 0, 0, 0, 0, 0, 0] ∧
    (parse_response Abi.x86_64 [0, 0, 0x81, 0x83, 0, 0, 0, 0, 0, 0, 0, 0] 12 blank_query).1 = -1 :=
  ⟨by decide,
   (parse_response_fails_iff Abi.x86_64 [0, 0, 0x81, 0x83, 0, 0, 0, 0, 0, 0, 0, 0] 12 blank_query
     (by decide)).1.2 (Or.inr (by decide))⟩

/-- C3: on an initialised cache with `max_entries > 0`, for a domain of at most
255 bytes, a payload of at most 512 bytes and any ttl, `cache_insert` followed
by `cache_lookup` of the same domain at the same clock value returns true,
reports the payload length, copies out the payload bytes, increments the hit
counter by one (in `size_t` arithmetic) and leaves the miss counter unchanged. -/
theorem cache_insert_then_lookup (abi : Abi) (s : cache_state) (now : Int)
    (domain payload out : List Nat) (out_len ttl : Nat)
    (hs : cache_ready s) (hd : (cstr domain).length ≤ 255) (hp : payload.length ≤ 512) :
    (cache_lookup abi (cache_insert abi s now domain payload payload.length ttl) now domain
      out out_len).1 = true ∧
    (cache_lookup abi (cache_insert abi s now domain payload payload.length ttl) now domain
      out out_len).2.2.2 = payload.length ∧
    (cache_lookup abi (cache_insert abi s now domain payload payload.length ttl) now domain
      out out_len).2.2.1.take payload.length = payload ∧
    (cache_lookup abi (cache_insert abi s now domain payload payload.length ttl) now domain
      out out_len).2.1.hit_count = (s.hit_count + 1) % 2 ^ 64 ∧
    (cache_lookup abi (cache_insert abi s now domain payload payload.length ttl) now domain
      out out_len).2.1.miss_count = s.miss_count := by
  obtain ⟨old, _, hnew⟩ := cache_insert_slot abi s now domain payload payload.length ttl hs hp
  have hf := cache_insert_frame abi s now domain payload payload.length ttl hs
  have hidx : slot_index abi (cache_insert abi s now domain payload payload.length ttl) domain =
      slot_index abi s domain := by unfold slot_index; rw [hf.2.1]
  rw [← hidx] at hnew
  rw [cache_lookup_hit abi _ now domain out out_len _ hnew rfl (inserted_key domain hd)
    (by simp only [inserted_entry, sub_self]; exact Int.ofNat_nonneg _)]
  refine ⟨rfl, rfl, ?_, ?_, hf.2.2.2⟩
  · exact copied_out old.response payload out
  · simp only [hf.2.2.1]

theorem cache_insert_then_lookup_witness :
    cache_ready test_cache ∧ (cstr [101, 120, 97, 109, 112, 108, 101, 46, 99, 111, 109]).length ≤ 255 ∧
    (cache_lookup Abi.x86_64
      (cache_insert Abi.x86_64 test_cache 1000 [101, 120, 97, 109, 112, 108, 101, 46, 99, 111, 109]
        [1, 2, 3, 4] 4 60)
      1000 [101, 120, 97, 109, 112, 108, 101, 46, 99, 111, 109] (List.replicate 512 0) 512).1 = true :=
  ⟨cache_init_ready _ _ (by decide), by decide,
   (cache_insert_then_lookup Abi.x86_64 test_cache 1000
     [101, 120, 97, 109, 112, 108, 101, 46, 99, 111, 109] [1, 2, 3, 4] (List.replicate 512 0) 512 60
     (cache_init_ready _ _ (by decide)) (by decide) (by decide)).1⟩

/-- C4: after `cache_insert` of a domain at time `t0` into an initialised cache
(the domain and the payload within the bounds of a cache entry, 255 and 512
bytes), a `cache_lookup` of that domain at time `now` hits if and only if
`now - t0` is at most the effective TTL; when `now - t0` exceeds it the lookup
returns false, increments the miss counter by one, leaves the hit counter alone
and leaves the slot's validity flag cleared. -/
theorem cache_lookup_ttl (abi : Abi) (s : cache_state) (t0 now : Int)
    (domain payload out : List Nat) (out_len ttl : Nat)
    (hs : cache_ready s) (hd : (cstr domain).length ≤ 255) (hp : payload.length ≤ 512) :
    ((cache_lookup abi (cache_insert abi s t0 domain payload payload.length ttl) now domain
        out out_len).1 = true ↔ now - t0 ≤ (effective_ttl s ttl : Int)) ∧
    (now - t0 > (effective_ttl s ttl : Int) →
      (cache_lookup abi (cache_insert abi s t0 domain payload payload.length ttl) now domain
        out out_len).1 = false ∧
      (cache_lookup abi (cache_insert abi s t0 domain payload payload.length ttl) now domain
        out out_len).2.1.miss_count = (s.miss_count + 1) % 2 ^ 64 ∧
      (cache_lookup abi (cache_insert abi s t0 domain payload payload.length ttl) now domain
        out out_len).2.1.hit_count = s.hit_count ∧
      (cache_slot (cache_lookup abi (cache_insert abi s t0 domain payload payload.length ttl) now
        domain out out_len).2.1 (slot_index abi s domain)).map (fun e => e.valid) = some false) := by
  obtain ⟨old, _, hnew⟩ := cache_insert_slot abi s t0 domain payload payload.length ttl hs hp
  have hf := cache_insert_frame abi s t0 domain payload payload.length ttl hs
  have hidx : slot_index abi (cache_insert abi s t0 domain payload payload.length ttl) domain =
      slot_index abi s domain := by unfold slot_index; rw [hf.2.1]
  rw [← hidx] at hnew
  have hstale : now - t0 > (effective_ttl s ttl : Int) →
      (cache_lookup abi (cache_insert abi s t0 domain payload payload.length ttl) now domain
        out out_len).1 = false ∧
      (cache_lookup abi (cache_insert abi s t0 domain payload payload.length ttl) now domain
        out out_len).2.1.miss_count = (s.miss_count + 1) % 2 ^ 64 ∧
      (cache_lookup abi (cache_insert abi s t0 domain payload payload.length ttl) now domain
        out out_len).2.1.hit_count = s.hit_count ∧
      (cache_slot (cache_lookup abi (cache_insert abi s t0 domain payload payload.length ttl) now
        domain out out_len).2.1 (slot_index abi s domain)).map (fun e => e.valid) = some false := by
    intro hgt
    have h := cache_lookup_stale abi _ now domain out out_len _ hnew rfl (inserted_key domain hd)
      (by simpa only [inserted_entry] using hgt)
    rw [hidx] at h
    refine ⟨h.1, ?_, ?_, ?_⟩
    · rw [h.2.1, hf.2.2.2]
    · rw [h.2.2.1, hf.2.2.1]
    · rw [h.2.2.2.2.1]; rfl
  refine ⟨?_, hstale⟩
  by_cases hle : now - t0 ≤ (effective_ttl s ttl : Int)
  · rw [cache_lookup_hit abi _ now domain out out_len _ hnew rfl (inserted_key domain hd)
      (by simpa only [inserted_entry] using hle)]
    simp only [true_iff]
    exact hle
  · have h := (hstale (by omega)).1
    rw [h]
    simp only [Bool.false_eq_true, false_iff]
    exact hle

theorem cache_lookup_ttl_witness :
    cache_ready test_cache ∧
    (cache_lookup Abi.x86_64
      (cache_insert Abi.x86_64 test_cache 1000 [101, 120, 112, 105, 114, 101, 100, 46, 99, 111, 109]
        [5, 6, 7, 8] 4 1)
      1002 [101, 120, 112, 105, 114, 101, 100, 46, 99, 111, 109] (List.replicate 512 0) 512).1 = false :=
  ⟨cache_init_ready _ _ (by decide),
   ((cache_lookup_ttl Abi.x86_64 test_cache 1000 1002
     [101, 120, 112, 105, 114, 101, 100, 46, 99, 111, 109] [5, 6, 7, 8] (List.replicate 512 0) 512 1
     (cache_init_ready _ _ (by decide)) (by decide) (by decide)).2 (by decide)).1⟩

/-- C5: on an initialised cache, for distinct domains `a` and `b` that map to the
same slot (`b` and its payload within the bounds of a cache entry, 255 and 512
bytes), inserting `a` (at any time, with any ttl and payload) and then `b` makes
an immediately following `cache_lookup(a)` miss, counted as one miss, and
`cache_lookup(b)` hit with the payload of `b`, whether it is looked up before or
after `a`. -/
theorem cache_collision_last_writer_wins (abi : Abi) (s : cache_state) (t0 t1 : Int)
    (a b pa pb out : List Nat) (len_a out_len ttl_a ttl_b : Nat) (s2 : cache_state)
    (hs : cache_ready s) (hab : cstr a ≠ cstr b)
    (hcol : hash_domain abi a % s.config.max_entries = hash_domain abi b % s.config.max_entries)
    (hb : (cstr b).length ≤ 255) (hpb : pb.length ≤ 512)
    (hs2 : s2 = cache_insert abi (cache_insert abi s t0 a pa len_a ttl_a) t1 b pb pb.length ttl_b) :
    (cache_lookup abi s2 t1 a out out_len).1 = false ∧
    (cache_lookup abi s2 t1 a out out_len).2.1.miss_count = (s.miss_count + 1) % 2 ^ 64 ∧
    (cache_lookup abi s2 t1 a out out_len).2.1.hit_count = s.hit_count ∧
    (cache_lookup abi s2 t1 b out out_len).1 = true ∧
    (cache_lookup abi s2 t1 b out out_len).2.2.2 = pb.length ∧
    (cache_lookup abi s2 t1 b out out_len).2.2.1.take pb.length = pb ∧
    (cache_lookup abi (cache_lookup abi s2 t1 a out out_len).2.1 t1 b out out_len).1 = true ∧
    (cache_lookup abi (cache_lookup abi s2 t1 a out out_len).2.1 t1 b out out_len).2.2.2
      = pb.length ∧
    (cache_lookup abi (cache_lookup abi s2 t1 a out out_len).2.1 t1 b out out_len).2.2.1.take
      pb.length = pb := by
  have hf1 := cache_insert_frame abi s t0 a pa len_a ttl_a hs
  have hf2 := cache_insert_frame abi _ t1 b pb pb.length ttl_b hf1.1
  obtain ⟨old, _, hnew⟩ := cache_insert_slot abi _ t1 b pb pb.length ttl_b hf1.1 hpb
  rw [← hs2] at hf2 hnew
  have hcfg : s2.config = s.config := by rw [hf2.2.1, hf1.2.1]
  have hib : slot_index abi s2 b = slot_index abi (cache_insert abi s t0 a pa len_a ttl_a) b := by
    unfold slot_index; rw [hf2.2.1]
  have hia : slot_index abi s2 a = slot_index abi s2 b := by
    unfold slot_index; rw [hcfg]; exact hcol
  rw [← hib] at hnew
  have hkey : ¬ ((inserted_entry (cache_insert abi s t0 a pa len_a ttl_a) old t1 b pb pb.length
      ttl_b).valid = true ∧
      cstr (inserted_entry (cache_insert abi s t0 a pa len_a ttl_a) old t1 b pb pb.length
        ttl_b).domain = cstr a) := by
    intro h
    apply hab
    have := h.2
    simp only [inserted_entry] at this
    rw [inserted_key b hb] at this
    exact this.symm
  have hla := cache_lookup_other abi s2 t1 a out out_len _ (by rw [hia]; exact hnew) hkey
  have hfresh : t1 - (inserted_entry (cache_insert abi s t0 a pa len_a ttl_a) old t1 b pb
      pb.length ttl_b).timestamp ≤ ((inserted_entry (cache_insert abi s t0 a pa len_a ttl_a) old
      t1 b pb pb.length ttl_b).ttl : Int) := by
    simp only [inserted_entry, sub_self]; exact Int.ofNat_nonneg _
  have hlb := cache_lookup_hit abi s2 t1 b out out_len _ hnew rfl (inserted_key b hb) hfresh
  have hlb2 := cache_lookup_hit abi { s2 with miss_count := (s2.miss_count + 1) % 2 ^ 64 } t1 b
    out out_len _ hnew rfl (inserted_key b hb) hfresh
  rw [hla, hlb, hlb2]
  refine ⟨rfl, ?_, ?_, rfl, rfl, copied_out old.response pb out, rfl, rfl,
    copied_out old.response pb out⟩
  · simp only [hf2.2.2.2, hf1.2.2.2]
  · simp only [hf2.2.2.1, hf1.2.2.1]

theorem cache_collision_last_writer_wins_witness :
    cache_ready test_cache ∧
    cstr [101, 120, 97, 109, 112, 108, 101, 46, 99, 111, 109] ≠
      cstr [104, 50, 49, 49, 46, 99, 111, 109] ∧
    hash_domain Abi.x86_64 [101, 120, 97, 109, 112, 108, 101, 46, 99, 111, 109] % 100 =
      hash_domain Abi.x86_64 [104, 50, 49, 49, 46, 99, 111, 109] % 100 ∧
    (cache_lookup Abi.x86_64
      (cache_insert Abi.x86_64
        (cache_insert Abi.x86_64 test_cache 1000
          [101, 120, 97, 109, 112, 108, 101, 46, 99, 111, 109] [1, 2] 2 3600)
        1001 [104, 50, 49, 49, 46, 99, 111, 109] [3, 4, 5] 3 60)
      1001 [101, 120, 97, 109, 112, 108, 101, 46, 99, 111, 109] [] 0).1 = false :=
  ⟨cache_init_ready _ _ (by decide), by decide, by decide,
   (cache_collision_last_writer_wins Abi.x86_64 test_cache 1000 1001
     [101, 120, 97, 109, 112, 108, 101, 46, 99, 111, 109] [104, 50, 49, 49, 46, 99, 111, 109]
     [1, 2] [3, 4, 5] [] 2 0 3600 60 _ (cache_init_ready _ _ (by decide)) (by decide) (by decide)
     (by decide) (by decide) rfl).1⟩

/-- C6: for a query whose name is at most 255 bytes and a capacity of at least
512, `construct_query` fails (returns -1, otherwise 0) exactly when splitting the
name at the dots yields a label of length 0 or above 63; the buffer-too-small
failure cannot happen.  So the empty name, a leading dot, a trailing dot and two
consecutive dots all fail. -/
theorem construct_query_fails_iff (abi : Abi) (query : dns_query) (buffer : List Nat)
    (buffer_len : Nat) (hname : (cstr query.name).length ≤ 255) (hcap : 512 ≤ buffer_len) :
    ((construct_query abi query buffer buffer_len).1 = -1 ↔
      ∃ l ∈ (cstr query.name).splitOn 46, l.length = 0 ∨ 63 < l.length) ∧
    ((construct_query abi query buffer buffer_len).1 = 0 ↔
      ¬ ∃ l ∈ (cstr query.name).splitOn 46, l.length = 0 ∨ 63 < l.length) ∧
    (cstr query.name = [] → (construct_query abi query buffer buffer_len).1 = -1) ∧
    (∀ s, cstr query.name = 46 :: s → (construct_query abi query buffer buffer_len).1 = -1) ∧
    (∀ s, cstr query.name = s ++ [46] → (construct_query abi query buffer buffer_len).1 = -1) ∧
    (∀ s t, cstr query.name = s ++ 46 :: 46 :: t →
      (construct_query abi query buffer buffer_len).1 = -1) := by
  have hret := construct_query_ret abi query buffer buffer_len hname hcap
  have hiff : (∀ l ∈ (cstr query.name).splitOn 46, valid_label l) ↔
      ¬ ∃ l ∈ (cstr query.name).splitOn 46, l.length = 0 ∨ 63 < l.length := by
    unfold valid_label
    constructor
    · rintro h ⟨l, hl, hbad⟩
      have := h l hl
      omega
    · intro h l hl
      by_contra hbad
      exact h ⟨l, hl, by omega⟩
  have hfail : (∃ l ∈ (cstr query.name).splitOn 46, l.length = 0 ∨ 63 < l.length) →
      (construct_query abi query buffer buffer_len).1 = -1 := by
    intro hex
    rw [hret, if_neg (fun hv => hiff.1 hv hex)]
  have hempty : ∀ name : List Nat, [] ∈ name.splitOn 46 →
      ∃ l ∈ name.splitOn 46, l.length = 0 ∨ 63 < l.length :=
    fun name h => ⟨[], h, Or.inl rfl⟩
  refine ⟨⟨?_, hfail⟩, ⟨?_, ?_⟩, ?_, ?_, ?_, ?_⟩
  · intro h
    by_contra hno
    rw [hret, if_pos (hiff.2 hno)] at h
    exact absurd h (by decide)
  · intro h hex
    rw [hfail hex] at h
    exact absurd h (by decide)
  · intro hno
    rw [hret, if_pos (hiff.2 hno)]
  · intro h
    exact hfail (hempty _ (by rw [h]; decide))
  · intro s h
    apply hfail; apply hempty
    rw [h, ← labels_from_nil, labels_from_cons_dot]
    exact List.mem_cons_self _ _
  · intro s h
    apply hfail; apply hempty
    rw [h, ← labels_from_nil]
    exact nil_mem_labels_trailing s []
  · intro s t h
    apply hfail; apply hempty
    rw [h, ← labels_from_nil]
    exact nil_mem_labels_double s t []

theorem construct_query_fails_iff_witness :
    (cstr (init_query Abi.x86_64 0 [97, 46, 46, 98] 1).1.name).length ≤ 255 ∧ 512 ≤ 512 ∧
    (construct_query Abi.x86_64 (init_query Abi.x86_64 0 [97, 46, 46, 98] 1).1 test_buffer 512).1
      = -1 :=
  ⟨by decide, by decide,
   (construct_query_fails_iff Abi.x86_64 (init_query Abi.x86_64 0 [97, 46, 46, 98] 1).1
     test_buffer 512 (by decide) (by decide)).1.2 ⟨[], by decide, Or.inl rfl⟩⟩

/-- C7, as stated, fails: encoding the empty name into a zeroed buffer of 512
bytes fails, yet the buffer has changed: its first 12 bytes hold the header. -/
theorem construct_query_failure_writes_header :
    (construct_query Abi.x86_64 (init_query Abi.x86_64 query_id_initial [] 1).1 test_buffer 512).1
      = -1 ∧
    (construct_query Abi.x86_64 (init_query Abi.x86_64 query_id_initial [] 1).1 test_buffer
      512).2.1.take 12 = [1, 0, 1, 0, 0, 1, 0, 0, 0, 0, 0, 0] ∧
    (construct_query Abi.x86_64 (init_query Abi.x86_64 query_id_initial [] 1).1 test_buffer
      512).2.1 ≠ test_buffer := by
  decide

/-- C7, amended: whenever `construct_query` fails it returns -1 and the caller's
length value is the same after the call as before it; when the failure is a
capacity below 512 every byte of the buffer is unchanged as well; when the
capacity is at least 512 the failure comes after the header copy, and the first
12 bytes of the buffer hold the header. -/
theorem construct_query_failure_output (abi : Abi) (query : dns_query) (buffer : List Nat)
    (buffer_len : Nat) (hfail : (construct_query abi query buffer buffer_len).1 ≠ 0) :
    (construct_query abi query buffer buffer_len).1 = -1 ∧
    (construct_query abi query buffer buffer_len).2.2 = buffer_len ∧
    (buffer_len < 512 → (construct_query abi query buffer buffer_len).2.1 = buffer) ∧
    (512 ≤ buffer_len →
      (construct_query abi query buffer buffer_len).2.1.take 12 =
        header_bytes abi query.header) := by
  refine ⟨?_, ?_, ?_, fun h => construct_query_header abi query buffer buffer_len h⟩
  · revert hfail
    simp only [construct_query]
    split_ifs <;> simp
  · revert hfail
    simp only [construct_query]
    split_ifs <;> simp
  · intro h
    simp only [construct_query, h, if_true]

theorem construct_query_failure_output_witness :
    (construct_query Abi.x86_64 (init_query Abi.x86_64 query_id_initial [] 1).1 test_buffer 512).1
      ≠ 0 ∧
    (construct_query Abi.x86_64 (init_query Abi.x86_64 query_id_initial [] 1).1 test_buffer
      512).2.2 = 512 :=
  ⟨by decide,
   (construct_query_failure_output Abi.x86_64 (init_query Abi.x86_64 query_id_initial [] 1).1
     test_buffer 512 (by decide)).2.1⟩

/-- C8: the id a call of `init_query` assigns is the static counter plus one
modulo 2^16, whatever the domain and type; so the id of the second of two
successive calls is the id of the first plus one modulo 2^16, the first id of the
program is 1, and the id after 65535 is 0. -/
theorem init_query_id_sequence (abi : Abi) (query_id : Nat) (d1 d2 : List Nat) (t1 t2 : Nat) :
    (init_query abi (init_query abi query_id d1 t1).2 d2 t2).1.header.id =
      ((init_query abi query_id d1 t1).1.header.id + 1) % 2 ^ 16 ∧
    (init_query abi query_id d1 t1).1.header.id = (query_id + 1) % 2 ^ 16 ∧
    (init_query abi query_id d1 t1).2 = (init_query abi query_id d1 t1).1.header.id ∧
    (init_query abi query_id_initial d1 t1).1.header.id = 1 ∧
    (init_query abi 65535 d1 t1).1.header.id = 0 :=
  ⟨rfl, rfl, rfl, rfl, rfl⟩

/-- C9, as stated, fails: on a little-endian host the decoded id of the wire
bytes `04 D2` is 0xD204, not the big-endian value 0x04D2 = 1234. -/
theorem parse_response_id_not_converted :
    (parse_response Abi.x86_64 test_response 12 blank_query).1 = 0 ∧
    (parse_response Abi.x86_64 test_response 12 blank_query).2.header.id = 0xD204 ∧
    (parse_response Abi.x86_64 test_response 12 blank_query).2.header.id ≠
      be16 (byte_at test_response 0) (byte_at test_response 1) := by
  decide

/-- C9, amended: for every buffer of at least 12 bytes, after `parse_response`
the fields flags, qdcount, ancount, nscount and arcount equal the big-endian
values of wire bytes 2..3, 4..5, 6..7, 8..9 and 10..11; the id is the two wire
bytes 0..1 read in host order, without conversion (byte 0 is the low byte on a
little-endian host, the high byte on a big-endian host). -/
theorem parse_response_header_fields (abi : Abi) (response : List Nat) (response_len : Nat)
    (query : dns_query) (hb : IsBytes response) (hlen : 12 ≤ response_len) :
    (parse_response abi response response_len query).2.header.flags =
      be16 (byte_at response 2) (byte_at response 3) ∧
    (parse_response abi response response_len query).2.header.qdcount =
      be16 (byte_at response 4) (byte_at response 5) ∧
    (parse_response abi response response_len query).2.header.ancount =
      be16 (byte_at response 6) (byte_at response 7) ∧
    (parse_response abi response response_len query).2.header.nscount =
      be16 (byte_at response 8) (byte_at response 9) ∧
    (parse_response abi response response_len query).2.header.arcount =
      be16 (byte_at response 10) (byte_at response 11) ∧
    (parse_response abi response response_len query).2.header.id =
      (if abi.little_endian then byte_at response 0 + 256 * byte_at response 1
       else be16 (byte_at response 0) (byte_at response 1)) := by
  rw [parse_response_flags abi response response_len query hb (by omega)]
  exact ⟨rfl, rfl, rfl, rfl, rfl, rfl⟩

theorem parse_response_header_fields_witness :
    IsBytes test_response ∧ 12 ≤ 12 ∧
    (parse_response Abi.x86_64 test_response 12 blank_query).2.header.flags =
      be16 (byte_at test_response 2) (byte_at test_response 3) :=
  ⟨by decide, by decide,
   (parse_response_header_fields Abi.x86_64 test_response 12 blank_query (by decide)
     (by decide)).1⟩

/-- C10, as stated, fails: on a little-endian host the first two output bytes
for the id 1 are `01 00`, low byte first. -/
theorem construct_query_id_low_byte_first :
    (init_query Abi.x86_64 query_id_initial test_com 1).1.header.id = 1 ∧
    (construct_query Abi.x86_64 (init_query Abi.x86_64 query_id_initial test_com 1).1
      test_buffer 512).1 = 0 ∧
    (construct_query Abi.x86_64 (init_query Abi.x86_64 query_id_initial test_com 1).1
      test_buffer 512).2.1.take 2 = [1, 0] ∧
    (construct_query Abi.x86_64 (init_query Abi.x86_64 query_id_initial test_com 1).1
      test_buffer 512).2.1.take 2 ≠
      be16_bytes (init_query Abi.x86_64 query_id_initial test_com 1).1.header.id := by
  decide

/-- C10, amended: for every query produced by `init_query` and every buffer of
capacity at least 512, the first 12 bytes after `construct_query` are the
header: bytes 0..1 are the transaction id as it lies in host memory (low byte
first on a little-endian host, high byte first on a big-endian host), bytes 2..3
are 0x01 0x00, bytes 4..5 are 0x00 0x01 and bytes 6..11 are zero. -/
theorem construct_query_header_wire (abi : Abi) (query_id : Nat) (domain_name : List Nat)
    (type : Nat) (buffer : List Nat) (buffer_len : Nat) (hcap : 512 ≤ buffer_len) :
    (construct_query abi (init_query abi query_id domain_name type).1 buffer buffer_len).2.1.take 12
      = (if abi.little_endian then
           [(init_query abi query_id domain_name type).1.header.id % 256,
            (init_query abi query_id domain_name type).1.header.id / 256 % 256]
         else
           [(init_query abi query_id domain_name type).1.header.id / 256 % 256,
            (init_query abi query_id domain_name type).1.header.id % 256]) ++
        [0x01, 0x00, 0x00, 0x01, 0, 0, 0, 0, 0, 0] := by
  rw [construct_query_header abi _ buffer buffer_len hcap, init_query_header_bytes]
  rfl

theorem construct_query_header_wire_witness :
    512 ≤ 512 ∧
    (construct_query Abi.x86_64 (init_query Abi.x86_64 query_id_initial test_com 1).1 test_buffer
      512).2.1.take 12 = [1, 0, 1, 0, 0, 1, 0, 0, 0, 0, 0, 0] :=
  ⟨by decide,
   construct_query_header_wire Abi.x86_64 query_id_initial test_com 1 test_buffer 512 (by decide)⟩

/-- C11: for every cache state whose array has `max_entries` slots and every
clock value, after `cache_cleanup` a slot is valid exactly when it was valid
before and `now - timestamp <= ttl`; its key, payload, length, timestamp and ttl
are unchanged, and so are the hit and miss counters and the configuration. -/
theorem cache_cleanup_slots (s : cache_state) (now : Int) (hs : cache_sized s) :
    (∀ i e, cache_slot s i = some e →
      ∃ e', cache_slot (cache_cleanup s now).1 i = some e' ∧
        (e'.valid = true ↔ (e.valid = true ∧ now - e.timestamp ≤ (e.ttl : Int))) ∧
        e'.domain = e.domain ∧ e'.response = e.response ∧
        e'.response_len = e.response_len ∧ e'.timestamp = e.timestamp ∧ e'.ttl = e.ttl) ∧
    (∀ i, cache_slot s i = none → cache_slot (cache_cleanup s now).1 i = none) ∧
    (cache_cleanup s now).1.hit_count = s.hit_count ∧
    (cache_cleanup s now).1.miss_count = s.miss_count ∧
    (cache_cleanup s now).1.config = s.config := by
  refine ⟨?_, ?_, cache_cleanup_frame s now⟩
  · intro i e he
    refine ⟨cleaned_entry now e, ?_, ?_⟩
    · rw [cache_cleanup_slot s now hs i, he]; rfl
    · unfold cleaned_entry
      by_cases hst : e.valid = true ∧ now - e.timestamp > (e.ttl : Int)
      · simp only [hst, and_self, if_true, Bool.false_eq_true, true_and, false_iff, not_le,
          and_true]
      · simp only [hst, if_false, and_true]
        constructor
        · intro hv
          refine ⟨hv, ?_⟩
          by_contra hgt
          exact hst ⟨hv, by omega⟩
        · exact fun h => h.1
  · intro i he
    rw [cache_cleanup_slot s now hs i, he]; rfl

theorem cache_cleanup_slots_witness :
    cache_sized cache_two_entries ∧
    (cache_cleanup cache_two_entries 1002).1.hit_count = cache_two_entries.hit_count ∧
    (cache_cleanup cache_two_entries 1002).2 = 1 ∧
    (cache_slot (cache_cleanup cache_two_entries 1002).1 35).map (fun e => (e.valid, e.ttl))
      = some (false, 1) ∧
    (cache_slot (cache_cleanup cache_two_entries 1002).1 56).map (fun e => (e.valid, e.ttl))
      = some (true, 300) :=
  ⟨cache_ready_sized _ (cache_insert_frame _ _ _ _ _ _ _
      (cache_insert_frame _ _ _ _ _ _ _ (cache_init_ready _ _ (by decide))).1).1,
   (cache_cleanup_slots cache_two_entries 1002
     (cache_ready_sized _ (cache_insert_frame _ _ _ _ _ _ _
      (cache_insert_frame _ _ _ _ _ _ _ (cache_init_ready _ _ (by decide))).1).1)).2.2.1,
   by decide, by decide, by decide⟩

/-- C12: `cache_init` does not assign the two counters.  At program start the
statistics after `cache_init` are `(0, 0, 0)`; after the first unit test (one
hit) and its `cache_destroy`, the next `cache_init` leaves hit count 1, miss
count 0 and hit ratio 1. -/
theorem cache_init_keeps_statistics :
    cache_get_hit_count test_cache = 0 ∧ cache_get_miss_count test_cache = 0 ∧
    cache_get_hit_ratio test_cache = 0 ∧
    cache_get_hit_count (cache_init cache_after_first_test test_config true) = 1 ∧
    cache_get_miss_count (cache_init cache_after_first_test test_config true) = 0 ∧
    cache_get_hit_ratio (cache_init cache_after_first_test test_config true) = 1 := by
  have h1 : (cache_init cache_after_first_test test_config true).hit_count = 1 := by decide
  have h2 : (cache_init cache_after_first_test test_config true).miss_count = 0 := by decide
  have h3 : test_cache.hit_count = 0 := by decide
  have h4 : test_cache.miss_count = 0 := by decide
  refine ⟨h3, h4, ?_, h1, h2, ?_⟩
  · simp [cache_get_hit_ratio, h3, h4]
  · simp [cache_get_hit_ratio, h1, h2]

set_option maxRecDepth 100000 in
/-- C13: on a cache miss with a frame that decodes, `process_packet` inserts and
transmits the 512 bytes of its local array `response`, which it never fills, not
the received frame: for the 26-byte frame `test_frame` and a local array holding
0xAA, the one transmit call and the entry found by the following lookup are
512 bytes of 0xAA. -/
theorem process_packet_miss_caches_local_array :
    (parse_response Abi.x86_64 test_frame 26 blank_query).1 = 0 ∧
    (cache_lookup Abi.x86_64 test_cache 1000 (test_frame.drop 12) test_stack 512).1 = false ∧
    (process_packet Abi.x86_64 test_cache test_socket 1000 1000 test_stack test_frame 26).2.2
      = [(test_stack, 512)] ∧
    (cache_lookup Abi.x86_64
      (process_packet Abi.x86_64 test_cache test_socket 1000 1000 test_stack test_frame 26).1
      1000 (test_frame.drop 12) test_buffer 512).1 = true ∧
    (cache_lookup Abi.x86_64
      (process_packet Abi.x86_64 test_cache test_socket 1000 1000 test_stack test_frame 26).1
      1000 (test_frame.drop 12) test_buffer 512).2.2.2 = 512 ∧
    (cache_lookup Abi.x86_64
      (process_packet Abi.x86_64 test_cache test_socket 1000 1000 test_stack test_frame 26).1
      1000 (test_frame.drop 12) test_buffer 512).2.2.1 = test_stack ∧
    (cache_lookup Abi.x86_64
      (process_packet Abi.x86_64 test_cache test_socket 1000 1000 test_stack test_frame 26).1
      1000 (test_frame.drop 12) test_buffer 512).2.2.1.take 26 ≠ test_frame := by
  decide

/-- C14, as stated, fails: with an entry for the frame's name in the cache, a
frame whose RCODE is 3 is answered from the cache: `process_packet` makes one
transmit call although `parse_response` fails on the frame. -/
theorem process_packet_rcode_hit_transmits :
    (parse_response Abi.x86_64 test_frame_rcode 26 blank_query).1 = -1 ∧
    (process_packet Abi.x86_64 cache_with_test_name test_socket 1000 1000 test_stack
      test_frame_rcode 26).2.2.length = 1 ∧
    (process_packet Abi.x86_64 cache_with_test_name test_socket 1000 1000 test_stack
      test_frame_rcode 26).2.2.map (fun c => (c.1.take c.2, c.2)) = [([1, 2, 3], 3)] ∧
    (process_packet Abi.x86_64 cache_with_test_name test_socket 1000 1000 test_stack
      test_frame_rcode 26).2.1.outstanding_tx = 1 := by
  decide

/-- C14, amended: `process_packet` drops a frame, with no transmit call, no
change of the socket and no cache insert, when the length is below 12 (the cache
is then not touched at all), and when the lookup of the frame's name misses and
`parse_response` fails (the cache is then as the lookup left it).  When the
lookup of the frame's name hits, the frame is not decoded: the cached bytes are
passed to one transmit call, whatever the RCODE. -/
theorem process_packet_drop (abi : Abi) (cs : cache_state) (xsk : xdp_socket)
    (now_lookup now_insert : Int) (stack packet : List Nat) (length : Nat) :
    (length < 12 →
      process_packet abi cs xsk now_lookup now_insert stack packet length = (cs, xsk, [])) ∧
    (12 ≤ length →
      (cache_lookup abi cs now_lookup (packet.drop 12) stack 512).1 = false →
      (parse_response abi packet length
        { header := header_of_bytes abi packet, qtype := 0, name := [], qclass := 0 }).1 ≠ 0 →
      process_packet abi cs xsk now_lookup now_insert stack packet length =
        ((cache_lookup abi cs now_lookup (packet.drop 12) stack 512).2.1, xsk, [])) ∧
    (12 ≤ length →
      (cache_lookup abi cs now_lookup (packet.drop 12) stack 512).1 = true →
      (process_packet abi cs xsk now_lookup now_insert stack packet length).2.2 =
        [((cache_lookup abi cs now_lookup (packet.drop 12) stack 512).2.2.1,
          (cache_lookup abi cs now_lookup (packet.drop 12) stack 512).2.2.2)] ∧
      (process_packet abi cs xsk now_lookup now_insert stack packet length).1 =
        (cache_lookup abi cs now_lookup (packet.drop 12) stack 512).2.1) := by
  refine ⟨process_packet_short abi cs xsk now_lookup now_insert stack packet length, ?_, ?_⟩
  · intro h hmiss hfail
    rw [process_packet_miss abi cs xsk now_lookup now_insert stack packet length h hmiss,
      if_neg hfail]
  · intro h hhit
    rw [process_packet_hit abi cs xsk now_lookup now_insert stack packet length h hhit]
    exact ⟨rfl, rfl⟩

theorem process_packet_drop_witness :
    (10 : Nat) < 12 ∧
    process_packet Abi.x86_64 cache_with_test_name test_socket 1000 1000 test_stack
      (test_frame.take 10) 10 = (cache_with_test_name, test_socket, []) :=
  ⟨by decide,
   (process_packet_drop Abi.x86_64 cache_with_test_name test_socket 1000 1000 test_stack
     (test_frame.take 10) 10).1 (by decide)⟩

/-- C15: for every socket state in which the completion ring holds no more
entries than `outstanding_tx` counts (each completion answers a descriptor that
`af_xdp_socket_tx` submitted and counted), one `af_xdp_socket_complete_tx` call
drains at most one batch of 64 completion descriptors, none when
`outstanding_tx` is 0, and decreases `outstanding_tx` by exactly the number
drained, without wrapping below zero; the ring still holds no more entries than
the new count. -/
theorem complete_tx_outstanding (s : xdp_socket)
    (hinv : cq_entries s ≤ s.outstanding_tx) (h32 : s.outstanding_tx < 2 ^ 32) :
    drained s ≤ XSK_BATCH_SIZE ∧
    (s.outstanding_tx = 0 → drained s = 0 ∧ af_xdp_socket_complete_tx s = s) ∧
    (af_xdp_socket_complete_tx s).outstanding_tx + drained s = s.outstanding_tx ∧
    (af_xdp_socket_complete_tx s).outstanding_tx ≤ s.outstanding_tx ∧
    cq_entries (af_xdp_socket_complete_tx s) + drained s = cq_entries s ∧
    cq_entries (af_xdp_socket_complete_tx s) ≤ (af_xdp_socket_complete_tx s).outstanding_tx ∧
    (af_xdp_socket_complete_tx s).cq.held = s.cq.held := by
  obtain ⟨e1, e2, e3, e4, _⟩ := complete_tx_effect s
  have hd : drained s ≤ 64 ∧ drained s ≤ cq_entries s := by
    rw [e2]
    unfold cq_entries
    split_ifs <;> omega
  have hout : (af_xdp_socket_complete_tx s).outstanding_tx + drained s = s.outstanding_tx := by
    rw [e3]
    split_ifs <;> omega
  refine ⟨hd.1, ?_, hout, by omega, e1, by omega, e4⟩
  intro h0
  refine ⟨by rw [e2]; simp only [h0, if_true], ?_⟩
  simp only [af_xdp_socket_complete_tx, h0, if_true]

theorem complete_tx_outstanding_witness :
    cq_entries socket_cached_view ≤ socket_cached_view.outstanding_tx ∧
    socket_cached_view.outstanding_tx < 2 ^ 32 ∧
    drained socket_cached_view = 6 ∧
    (af_xdp_socket_complete_tx socket_cached_view).outstanding_tx = 30 ∧
    (af_xdp_socket_complete_tx socket_cached_view).outstanding_tx + drained socket_cached_view =
      socket_cached_view.outstanding_tx :=
  ⟨by decide, by decide, by decide, by decide,
   (complete_tx_outstanding socket_cached_view (by decide) (by decide)).2.2.1⟩

/-- C17, as stated, fails: a lookup of `example.com` two seconds after `h211.com`
was inserted into the same slot with ttl 1 misses and counts one miss, but leaves
the stale slot valid; and a lookup before `cache_init` returns false without
counting a miss. -/
theorem cache_lookup_keeps_stale_other_key :
    hash_domain Abi.x86_64 example_com % 100 = 78 ∧
    (cache_slot cache_with_h211 78).map
      (fun e => (e.valid, cstr e.domain, decide (1002 - e.timestamp > (e.ttl : Int)))) =
      some (true, h211_com, true) ∧
    (cache_lookup Abi.x86_64 cache_with_h211 1002 example_com test_buffer 512).1 = false ∧
    (cache_lookup Abi.x86_64 cache_with_h211 1002 example_com test_buffer 512).2.1.miss_count
      = 1 ∧
    (cache_slot (cache_lookup Abi.x86_64 cache_with_h211 1002 example_com test_buffer 512).2.1
      78).map (fun e => e.valid) = some true ∧
    (cache_lookup Abi.x86_64 cache_state.initial 1002 example_com test_buffer 512).1 = false ∧
    (cache_lookup Abi.x86_64 cache_state.initial 1002 example_com test_buffer 512).2.1.miss_count
      = 0 := by
  decide

/-- C17, amended: for every `cache_lookup(domain)` on an initialised cache that
does not hit, the miss counter increases by exactly one and the hit counter is
unchanged; if the slot at `hash(domain) mod max_entries` was valid and its key
equals `domain`, it was stale and the lookup invalidates it, leaving its other
fields alone; if the slot was invalid or holds a different key, the cache array
is unchanged, so a stale entry of a different domain stays valid. -/
theorem cache_lookup_miss (abi : Abi) (s : cache_state) (now : Int)
    (domain response : List Nat) (response_len : Nat) (hs : cache_ready s)
    (hmiss : (cache_lookup abi s now domain response response_len).1 = false) :
    (cache_lookup abi s now domain response response_len).2.1.miss_count =
      (s.miss_count + 1) % 2 ^ 64 ∧
    (cache_lookup abi s now domain response response_len).2.1.hit_count = s.hit_count ∧
    ∃ e, cache_slot s (hash_domain abi domain % s.config.max_entries) = some e ∧
      (e.valid = true ∧ cstr e.domain = cstr domain →
        now - e.timestamp > (e.ttl : Int) ∧
        cache_slot (cache_lookup abi s now domain response response_len).2.1
          (hash_domain abi domain % s.config.max_entries) = some { e with valid := false }) ∧
      (¬ (e.valid = true ∧ cstr e.domain = cstr domain) →
        (cache_lookup abi s now domain response response_len).2.1.cache = s.cache) := by
  obtain ⟨entries, e, hc, _, _, he⟩ := cache_ready_slot abi s domain hs
  have hslot : cache_slot s (slot_index abi s domain) = some e := by
    unfold cache_slot slot_index; rw [hc]; exact he
  by_cases hk : e.valid = true ∧ cstr e.domain = cstr domain
  · have hstale : now - e.timestamp > (e.ttl : Int) := by
      by_contra hfresh
      rw [cache_lookup_hit abi s now domain response response_len e hslot hk.1 hk.2
        (by omega)] at hmiss
      cases hmiss
    have h := cache_lookup_stale abi s now domain response response_len e hslot hk.1 hk.2 hstale
    exact ⟨h.2.1, h.2.2.1, e, hslot, fun _ => ⟨hstale, h.2.2.2.2.1⟩, fun hno => absurd hk hno⟩
  · rw [cache_lookup_other abi s now domain response response_len e hslot hk]
    exact ⟨rfl, rfl, e, hslot, fun hyes => absurd hyes hk, fun _ => rfl⟩

theorem cache_lookup_miss_witness :
    cache_ready cache_with_h211 ∧
    (cache_lookup Abi.x86_64 cache_with_h211 1002 h211_com test_buffer 512).1 = false ∧
    (cache_lookup Abi.x86_64 cache_with_h211 1002 h211_com test_buffer 512).2.1.miss_count =
      (cache_with_h211.miss_count + 1) % 2 ^ 64 :=
  ⟨(cache_insert_frame _ _ _ _ _ _ _ (cache_init_ready _ _ (by decide))).1, by decide,
   (cache_lookup_miss Abi.x86_64 cache_with_h211 1002 h211_com test_buffer 512
     (cache_insert_frame _ _ _ _ _ _ _ (cache_init_ready _ _ (by decide))).1 (by decide)).1⟩

/-- C18, as stated, fails: where plain `char` is signed (x86-64) the byte 0xC8
enters the hash as -56, so `hash_domain` of the one-byte string `C8` is 177517
while the djb2 fold over unsigned bytes gives 177773. -/
theorem hash_domain_high_byte :
    hash_domain Abi.x86_64 [0xC8] = 177517 ∧ djb2 [0xC8] = 177773 ∧
    hash_domain Abi.x86_64 [0xC8] ≠ djb2 [0xC8] := by
  decide

/-- C18, amended: for every NUL-free byte string `s`, `hash_domain(s)` is the
fold that starts from 5381 and sets `hash = (hash * 33 + c) mod 2^32` for each
byte in order, where `c` is the byte as a plain `char`: the byte itself below
0x80, and for 0x80..0xFF the byte itself where `char` is unsigned but the byte
minus 256 where `char` is signed.  So it equals the djb2 fold over unsigned bytes
when all bytes are below 0x80 or `char` is unsigned.  `cache_insert` writes and
`cache_lookup` reads and writes only the slot at index
`hash_domain(s) mod max_entries`. -/
theorem hash_domain_fold (abi : Abi) (s : List Nat) (hnul : ∀ b ∈ s, b ≠ 0) :
    hash_domain abi s = djb2_char abi s ∧
    ((abi.char_signed = false ∨ ∀ b ∈ s, b < 128) → hash_domain abi s = djb2 s) ∧
    (∀ (cs : cache_state) (now : Int) (payload : List Nat) (len ttl : Nat),
      cache_ready cs → len ≤ 512 →
      (∃ old, cache_slot cs (hash_domain abi s % cs.config.max_entries) = some old ∧
        cache_slot (cache_insert abi cs now s payload len ttl)
          (hash_domain abi s % cs.config.max_entries) =
          some (inserted_entry cs old now s payload len ttl)) ∧
      ∀ j, j ≠ hash_domain abi s % cs.config.max_entries →
        cache_slot (cache_insert abi cs now s payload len ttl) j = cache_slot cs j) ∧
    (∀ (cs : cache_state) (now : Int) (out : List Nat) (out_len : Nat),
      ((cache_lookup abi cs now s out out_len).1 = true ↔
        ∃ e, cache_slot cs (hash_domain abi s % cs.config.max_entries) = some e ∧
          e.valid = true ∧ cstr e.domain = cstr s ∧ now - e.timestamp ≤ (e.ttl : Int)) ∧
      ∀ j, j ≠ hash_domain abi s % cs.config.max_entries →
        cache_slot (cache_lookup abi cs now s out out_len).2.1 j = cache_slot cs j) := by
  have h1 : hash_domain abi s = djb2_char abi s := by
    unfold hash_domain djb2_char
    exact hash_domain_loop_eq abi s hnul 5381
  refine ⟨h1, ?_, ?_, ?_⟩
  · intro h
    rw [h1]
    unfold djb2_char djb2
    exact djb2_char_eq_djb2 abi s h 5381
  · intro cs now payload len ttl hready hlen
    exact ⟨cache_insert_slot abi cs now s payload len ttl hready hlen,
      fun j hj => cache_insert_other_slots abi cs now s payload len ttl j hj⟩
  · intro cs now out out_len
    exact ⟨cache_lookup_returns_iff abi cs now s out out_len,
      fun j hj => cache_lookup_other_slots abi cs now s out out_len j hj⟩

theorem hash_domain_fold_witness :
    (∀ b ∈ test_com, b ≠ 0) ∧ hash_domain Abi.x86_64 test_com = djb2 test_com ∧
    djb2 test_com = 4241555506 :=
  ⟨by decide,
   (hash_domain_fold Abi.x86_64 test_com (by decide)).2.1 (Or.inr (by decide)), by decide⟩

end WhackAPacket
